import Mathlib

/-!
# Shallow embedding of the chess-game rules engine and AI

This file embeds the rules engine of the repository (piece move generation,
the legality filter `MoveValidator`, the game-state machine, and the minimax
AI of `ai-engine.js`) as executable Lean definitions, and proves the stated
properties about them.

Conventions of the embedding:
* JS numbers used as board indices are embedded as `Int`.
* A board (`board[row][col]`, an 8×8 array of nullable pieces) is embedded as
  a function `Int → Int → Option ChessPiece`; reads go through `boardGet`,
  which returns `none` outside the 8×8 range (JS yields `undefined` for an
  out-of-range column; out-of-range rows are never dereferenced on the code
  paths modelled here, because every access is guarded by `isValidSquare`).
* Sequential JS array-cell assignments become nested `setPiece` updates, the
  later assignment winning on overlap, as in JS.
* Piece objects are embedded as values; JS `clone()` / `{...piece}` copies
  therefore become the identity, and field mutations become functional
  record updates.
-/

inductive Color where
  | white
  | black
deriving DecidableEq, Repr

inductive PieceType where
  | pawn
  | rook
  | knight
  | bishop
  | queen
  | king
deriving DecidableEq, Repr

/-- `ChessPiece` from the pieces file: `{type, color, row, col, hasMoved, moveCount}`. -/
structure ChessPiece where
  type : PieceType
  color : Color
  row : Int
  col : Int
  hasMoved : Bool
  moveCount : Nat
deriving DecidableEq, Repr

def Board : Type := Int → Int → Option ChessPiece

namespace ChessUtils

/-- `isValidSquare(row, col)`: `row >= 0 && row < 8 && col >= 0 && col < 8`. -/
def isValidSquare (row col : Int) : Bool :=
  decide (0 ≤ row ∧ row < 8 ∧ 0 ≤ col ∧ col < 8)

/-- `getOppositeColor(color)`. -/
def getOppositeColor : Color → Color
  | Color.white => Color.black
  | Color.black => Color.white

end ChessUtils

/-- Read `board[row][col]`; `none` outside the 8×8 range. -/
def boardGet (b : Board) (row col : Int) : Option ChessPiece :=
  if ChessUtils.isValidSquare row col then b row col else none

/-- Write `board[row][col] = p` (functional update). -/
def setPiece (b : Board) (row col : Int) (p : Option ChessPiece) : Board :=
  fun r c => if r = row ∧ c = col then p else b r c

/-- The 64 squares in the row-major scan order used by all `for row / for col`
loops of the source. -/
def squaresList : List (Int × Int) :=
  (List.range 8).flatMap (fun r => (List.range 8).map (fun c => (Int.ofNat r, Int.ofNat c)))

namespace ChessPiece

/-- `getPawnMoves(board)`: forward when empty, double from the start row when
both squares are empty, diagonal only onto an enemy piece. -/
def getPawnMoves (p : ChessPiece) (b : Board) : List (Int × Int) :=
  let direction : Int := if p.color = Color.white then -1 else 1
  let startRow : Int := if p.color = Color.white then 6 else 1
  let newRow := p.row + direction
  let forward : List (Int × Int) :=
    if ChessUtils.isValidSquare newRow p.col ∧ boardGet b newRow p.col = none then
      (newRow, p.col) ::
        (if p.row = startRow ∧ ChessUtils.isValidSquare (newRow + direction) p.col ∧
            boardGet b (newRow + direction) p.col = none then
          [(newRow + direction, p.col)]
        else [])
    else []
  let captures : List (Int × Int) :=
    ([-1, 1] : List Int).filterMap (fun colOffset =>
      let captureCol := p.col + colOffset
      if ChessUtils.isValidSquare newRow captureCol then
        match boardGet b newRow captureCol with
        | some target => if target.color ≠ p.color then some (newRow, captureCol) else none
        | none => none
      else none)
  forward ++ captures

/-- The inner `for i = 1; i < 8` walk of the sliding-piece generators:
step `i` is `(row + rowDir*i, col + colDir*i)`; stop at the edge, stop and
exclude on a friendly piece, stop and include on an enemy piece. -/
def slideLoop (b : Board) (selfColor : Color) (row col rowDir colDir : Int) :
    Nat → Nat → List (Int × Int)
  | _, 0 => []
  | i, fuel + 1 =>
    let newRow := row + rowDir * (i : Int)
    let newCol := col + colDir * (i : Int)
    if ChessUtils.isValidSquare newRow newCol then
      match boardGet b newRow newCol with
      | none => (newRow, newCol) :: slideLoop b selfColor row col rowDir colDir (i + 1) fuel
      | some target => if target.color ≠ selfColor then [(newRow, newCol)] else []
    else []

/-- The shared per-square step of the knight/king generators: include the
square when it is on the board and not occupied by a friendly piece. -/
def stepTarget (b : Board) (selfColor : Color) (newRow newCol : Int) : Option (Int × Int) :=
  if ChessUtils.isValidSquare newRow newCol then
    match boardGet b newRow newCol with
    | none => some (newRow, newCol)
    | some target => if target.color ≠ selfColor then some (newRow, newCol) else none
  else none

/-- `getRookMoves(board)`. -/
def getRookMoves (p : ChessPiece) (b : Board) : List (Int × Int) :=
  ([((0 : Int), (1 : Int)), (0, -1), (1, 0), (-1, 0)]).flatMap
    (fun d => slideLoop b p.color p.row p.col d.1 d.2 1 7)

/-- `getBishopMoves(board)`. -/
def getBishopMoves (p : ChessPiece) (b : Board) : List (Int × Int) :=
  ([((1 : Int), (1 : Int)), (1, -1), (-1, 1), (-1, -1)]).flatMap
    (fun d => slideLoop b p.color p.row p.col d.1 d.2 1 7)

/-- `getQueenMoves(board)` = rook moves ++ bishop moves. -/
def getQueenMoves (p : ChessPiece) (b : Board) : List (Int × Int) :=
  getRookMoves p b ++ getBishopMoves p b

/-- `getKnightMoves(board)`. -/
def getKnightMoves (p : ChessPiece) (b : Board) : List (Int × Int) :=
  ([((-2 : Int), (-1 : Int)), (-2, 1), (-1, -2), (-1, 2), (1, -2), (1, 2), (2, -1), (2, 1)]).filterMap
    (fun d => stepTarget b p.color (p.row + d.1) (p.col + d.2))

/-- `getCastlingMoves(board)`: candidate king destinations `g`/`c` file, only
from the home square, with an unmoved same-color rook and empty squares
between king and rook. -/
def getCastlingMoves (p : ChessPiece) (b : Board) : List (Int × Int) :=
  let backRank : Int := if p.color = Color.white then 7 else 0
  if p.row = backRank ∧ p.col = 4 then
    (match boardGet b backRank 7 with
     | some kingsideRook =>
       if kingsideRook.type = PieceType.rook ∧ kingsideRook.color = p.color ∧
           kingsideRook.hasMoved = false ∧
           boardGet b backRank 5 = none ∧ boardGet b backRank 6 = none then
         [(backRank, (6 : Int))]
       else []
     | none => []) ++
    (match boardGet b backRank 0 with
     | some queensideRook =>
       if queensideRook.type = PieceType.rook ∧ queensideRook.color = p.color ∧
           queensideRook.hasMoved = false ∧
           boardGet b backRank 1 = none ∧ boardGet b backRank 2 = none ∧
           boardGet b backRank 3 = none then
         [(backRank, (2 : Int))]
       else []
     | none => [])
  else []

/-- `getKingMoves(board)`: the eight neighbours, plus castling candidates when
the king has not moved. -/
def getKingMoves (p : ChessPiece) (b : Board) : List (Int × Int) :=
  (([((-1 : Int), (-1 : Int)), (-1, 0), (-1, 1), (0, -1), (0, 1), (1, -1), (1, 0), (1, 1)]).filterMap
    (fun d => stepTarget b p.color (p.row + d.1) (p.col + d.2))) ++
  (if p.hasMoved = false then getCastlingMoves p b else [])

/-- `getValidMoves(board)`: dispatch on the piece type (pseudo-legal moves). -/
def getValidMoves (p : ChessPiece) (b : Board) : List (Int × Int) :=
  match p.type with
  | PieceType.pawn => getPawnMoves p b
  | PieceType.rook => getRookMoves p b
  | PieceType.knight => getKnightMoves p b
  | PieceType.bishop => getBishopMoves p b
  | PieceType.queen => getQueenMoves p b
  | PieceType.king => getKingMoves p b

end ChessPiece

namespace PieceFactory

/-- A freshly created piece (`hasMoved = false`, `moveCount = 0`). -/
def mkPiece (t : PieceType) (c : Color) (row col : Int) : ChessPiece :=
  { type := t, color := c, row := row, col := col, hasMoved := false, moveCount := 0 }

/-- The back-rank piece type at a given column of the initial setup. -/
def backRankType (col : Int) : PieceType :=
  if col = 0 ∨ col = 7 then PieceType.rook
  else if col = 1 ∨ col = 6 then PieceType.knight
  else if col = 2 ∨ col = 5 then PieceType.bishop
  else if col = 3 then PieceType.queen
  else PieceType.king

/-- `createInitialBoard()`: black pieces on rows 0–1, white pieces on rows 6–7. -/
def createInitialBoard : Board := fun row col =>
  if ¬ (0 ≤ col ∧ col < 8) then none
  else if row = 0 then some (mkPiece (backRankType col) Color.black row col)
  else if row = 1 then some (mkPiece PieceType.pawn Color.black row col)
  else if row = 6 then some (mkPiece PieceType.pawn Color.white row col)
  else if row = 7 then some (mkPiece (backRankType col) Color.white row col)
  else none

end PieceFactory

namespace MoveValidator

/-- `simulateMove(board, fromRow, fromCol, toRow, toCol)`: clone the board and
perform the move, displacing the rook too when the moved piece is a king
travelling two columns. Row/col of the moved pieces are updated, `hasMoved`
and `moveCount` are not. -/
def simulateMove (b : Board) (fromRow fromCol toRow toCol : Int) : Board :=
  match boardGet b fromRow fromCol with
  | none => b
  | some piece =>
    if piece.type = PieceType.king ∧ (toCol - fromCol).natAbs = 2 then
      let rookFromCol : Int := if toCol = 6 then 7 else 0
      let rookToCol : Int := if toCol = 6 then 5 else 3
      let b1 := setPiece (setPiece b toRow toCol
                  (some { piece with row := toRow, col := toCol })) fromRow fromCol none
      match boardGet b1 fromRow rookFromCol with
      | some rook =>
        setPiece (setPiece b1 fromRow rookToCol
          (some { rook with row := fromRow, col := rookToCol })) fromRow rookFromCol none
      | none => b1
    else
      setPiece (setPiece b toRow toCol
        (some { piece with row := toRow, col := toCol })) fromRow fromCol none

/-- `findKing(board, color)`: row-major scan for the first king of the color. -/
def findKing (b : Board) (color : Color) : Option ChessPiece :=
  squaresList.findSome? (fun rc =>
    match boardGet b rc.1 rc.2 with
    | some p => if p.type = PieceType.king ∧ p.color = color then some p else none
    | none => none)

/-- `isKingInCheck(board, color)`: `false` when there is no king; otherwise
scan all squares for an enemy piece whose pseudo-legal moves contain the
king's square. -/
def isKingInCheck (b : Board) (color : Color) : Bool :=
  match findKing b color with
  | none => false
  | some king =>
    squaresList.any (fun rc =>
      match boardGet b rc.1 rc.2 with
      | some p =>
        decide (p.color = ChessUtils.getOppositeColor color) &&
          decide ((king.row, king.col) ∈ p.getValidMoves b)
      | none => false)

/-- `isCastlingValid(king, toRow, toCol, board)`: king not currently in check,
and each column the king crosses (5 then 6 kingside; 3 then 2 queenside)
simulated free of check. -/
def isCastlingValid (king : ChessPiece) (_toRow toCol : Int) (b : Board) : Bool :=
  !isKingInCheck b king.color &&
  (if toCol = 6 then
    !isKingInCheck (simulateMove b king.row king.col king.row 5) king.color &&
    !isKingInCheck (simulateMove b king.row king.col king.row 6) king.color
  else if toCol = 2 then
    !isKingInCheck (simulateMove b king.row king.col king.row 3) king.color &&
    !isKingInCheck (simulateMove b king.row king.col king.row 2) king.color
  else true)

/-- `isValidMove(piece, toRow, toCol, board, gameState)`: target on-board and
not friendly, destination pseudo-legal, castling checked via
`isCastlingValid`, otherwise the move must not leave the own king in check. -/
def isValidMove (piece : ChessPiece) (toRow toCol : Int) (b : Board) : Bool :=
  ChessUtils.isValidSquare toRow toCol &&
  !(match boardGet b toRow toCol with
    | some target => decide (target.color = piece.color)
    | none => false) &&
  decide ((toRow, toCol) ∈ piece.getValidMoves b) &&
  (if piece.type = PieceType.king ∧ (toCol - piece.col).natAbs = 2 then
    isCastlingValid piece toRow toCol b
  else
    !isKingInCheck (simulateMove b piece.row piece.col toRow toCol) piece.color)

/-- `isCheckmate(board, color)`: in check and no own piece has a pseudo-legal
move accepted by `isValidMove`. -/
def isCheckmate (b : Board) (color : Color) : Bool :=
  isKingInCheck b color &&
  !(squaresList.any (fun rc =>
    match boardGet b rc.1 rc.2 with
    | some p =>
      decide (p.color = color) &&
        (p.getValidMoves b).any (fun mv => isValidMove p mv.1 mv.2 b)
    | none => false))

/-- `isStalemate(board, color)`: not in check and no own piece has a
pseudo-legal move accepted by `isValidMove`. -/
def isStalemate (b : Board) (color : Color) : Bool :=
  !isKingInCheck b color &&
  !(squaresList.any (fun rc =>
    match boardGet b rc.1 rc.2 with
    | some p =>
      decide (p.color = color) &&
        (p.getValidMoves b).any (fun mv => isValidMove p mv.1 mv.2 b)
    | none => false))

end MoveValidator

namespace ChessGame

/-- Game status (`this.gameState` strings of `ChessGame`); `endGame` overwrites
`draw` with its reason, hence the dedicated `insufficientMaterial` state. -/
inductive GameStatus where
  | playing
  | check
  | checkmate
  | stalemate
  | insufficientMaterial
deriving DecidableEq, Repr

inductive CastleSide where
  | kingside
  | queenside
deriving DecidableEq, Repr

/-- The castling info recorded on a move (`lastMove.castling`). -/
structure CastlingInfo where
  side : CastleSide
  rookFrom : Int × Int
  rookTo : Int × Int
deriving DecidableEq, Repr

/-- The state-relevant fields of a recorded move (`lastMove` / a
`moveHistory` entry); UI metadata (notation, timestamps) is omitted as the
engine never reads it back. -/
structure MoveRecord where
  fromSq : Int × Int
  toSq : Int × Int
  piece : ChessPiece
  capturedPiece : Option ChessPiece
  promotion : Option PieceType
  castling : Option CastlingInfo

/-- The engine-relevant state of a `ChessGame` (board, turn, status, history,
captured pieces); timers and DOM state are omitted. -/
structure Game where
  board : Board
  currentPlayer : Color
  gameState : GameStatus
  moveHistory : List MoveRecord
  capturedWhite : List ChessPiece
  capturedBlack : List ChessPiece

/-- The initial game (`startGame`). -/
def initialGame : Game :=
  { board := PieceFactory.createInitialBoard
    currentPlayer := Color.white
    gameState := GameStatus.playing
    moveHistory := []
    capturedWhite := []
    capturedBlack := [] }

/-- The piece types present on the board, in scan order (the `pieces` array of
`isInsufficientMaterial`). -/
def boardPieceTypes (b : Board) : List PieceType :=
  squaresList.filterMap (fun rc => (boardGet b rc.1 rc.2).map (fun p => p.type))

/-- `isInsufficientMaterial(board)`: two pieces, or three pieces among whose
non-king types is a bishop or a knight. -/
def isInsufficientMaterial (b : Board) : Bool :=
  let pieces := boardPieceTypes b
  if pieces.length = 2 then true
  else if pieces.length = 3 then
    let pieceTypes := pieces.filter (fun t => ¬ t = PieceType.king)
    pieceTypes.contains PieceType.bishop || pieceTypes.contains PieceType.knight
  else false

/-- The status computed by `checkGameState()` for the (new) current player:
check/checkmate first, else stalemate, and insufficient material checked on
the fall-through of both the `check` and the `playing` outcomes. -/
def checkGameStateStatus (b : Board) (player : Color) : GameStatus :=
  if MoveValidator.isKingInCheck b player then
    if MoveValidator.isCheckmate b player then GameStatus.checkmate
    else if isInsufficientMaterial b then GameStatus.insufficientMaterial
    else GameStatus.check
  else if MoveValidator.isStalemate b player then GameStatus.stalemate
  else if isInsufficientMaterial b then GameStatus.insufficientMaterial
  else GameStatus.playing

/-- `handleMove` after a board move: record the move, tally a capture,
switch players and recompute the game state. -/
def finishMove (g : Game) (b : Board) (mv : MoveRecord) : Game :=
  let capturedWhite :=
    match mv.capturedPiece with
    | some cp => if cp.color = Color.white then g.capturedWhite ++ [cp] else g.capturedWhite
    | none => g.capturedWhite
  let capturedBlack :=
    match mv.capturedPiece with
    | some cp => if cp.color = Color.black then g.capturedBlack ++ [cp] else g.capturedBlack
    | none => g.capturedBlack
  let newPlayer := ChessUtils.getOppositeColor g.currentPlayer
  { board := b
    currentPlayer := newPlayer
    gameState := checkGameStateStatus b newPlayer
    moveHistory := g.moveHistory ++ [mv]
    capturedWhite := capturedWhite
    capturedBlack := capturedBlack }

/-- `piece.moveTo(newRow, newCol)`: relocate, set `hasMoved`, bump
`moveCount`. -/
def moveTo (p : ChessPiece) (newRow newCol : Int) : ChessPiece :=
  { p with row := newRow, col := newCol, hasMoved := true, moveCount := p.moveCount + 1 }

/-- `ChessBoard.makeMove` (state effects only) followed by
`ChessGame.handleMove`, for a local (human vs human) game: `none` when the
move is rejected (terminal state, wrong turn, or failing `isValidMove`).
`promotionChoice` stands for the piece chosen in the promotion modal. -/
def gameApplyMove (g : Game) (fromRow fromCol toRow toCol : Int)
    (promotionChoice : PieceType) : Option Game :=
  match boardGet g.board fromRow fromCol with
  | none => none
  | some piece =>
    if ¬ (g.gameState = GameStatus.playing ∨ g.gameState = GameStatus.check) then none
    else if ¬ piece.color = g.currentPlayer then none
    else if ¬ MoveValidator.isValidMove piece toRow toCol g.board then none
    else
      let capturedPiece := boardGet g.board toRow toCol
      let isPromotion := piece.type = PieceType.pawn ∧
        ((piece.color = Color.white ∧ toRow = 0) ∨ (piece.color = Color.black ∧ toRow = 7))
      if piece.type = PieceType.king ∧ (toCol - fromCol).natAbs = 2 then
        -- executeCastling
        let rookFromCol : Int := if toCol = 6 then 7 else 0
        let rookToCol : Int := if toCol = 6 then 5 else 3
        match boardGet g.board fromRow rookFromCol with
        | none => none  -- JS would crash on rook.moveTo; unreachable on validated moves
        | some rook =>
          let king' := moveTo piece toRow toCol
          let rook' := moveTo rook fromRow rookToCol
          let b1 := setPiece (setPiece g.board toRow toCol (some king')) fromRow fromCol none
          let b2 := setPiece (setPiece b1 fromRow rookToCol (some rook')) fromRow rookFromCol none
          some (finishMove g b2
            { fromSq := (fromRow, fromCol), toSq := (toRow, toCol), piece := king'
              capturedPiece := none, promotion := none
              castling := some
                { side := if toCol = 6 then CastleSide.kingside else CastleSide.queenside
                  rookFrom := (fromRow, rookFromCol), rookTo := (fromRow, rookToCol) } })
      else
        let piece' := moveTo piece toRow toCol
        let b1 := setPiece (setPiece g.board toRow toCol (some piece')) fromRow fromCol none
        if isPromotion then
          let promoted := PieceFactory.mkPiece promotionChoice piece.color toRow toCol
          let b2 := setPiece b1 toRow toCol (some promoted)
          some (finishMove g b2
            { fromSq := (fromRow, fromCol), toSq := (toRow, toCol), piece := promoted
              capturedPiece := capturedPiece, promotion := some promotionChoice
              castling := none })
        else
          some (finishMove g b1
            { fromSq := (fromRow, fromCol), toSq := (toRow, toCol), piece := piece'
              capturedPiece := capturedPiece, promotion := none, castling := none })

/-- The captured-array restore of `undoLastMove`: remove the first piece with
the matching type (`findIndex` + `splice`). -/
def removeFirstByType : List ChessPiece → PieceType → List ChessPiece
  | [], _ => []
  | p :: rest, t => if p.type = t then rest else p :: removeFirstByType rest t

/-- The piece-field restore of `undoLastMove`: `moveTo(from)` (which itself
bumps `moveCount` and sets `hasMoved`), then `hasMoved = moveCount > 1`,
then `moveCount--`. -/
def undoRestore (p : ChessPiece) (fromRow fromCol : Int) : ChessPiece :=
  let p1 := moveTo p fromRow fromCol
  let p2 := { p1 with hasMoved := decide (p1.moveCount > 1) }
  { p2 with moveCount := p2.moveCount - 1 }

/-- `undoLastMove()`: pop the last history entry, move the piece (and the
castling rook) back, restore a captured piece, remove it from the captured
tally, switch the player back and reset the status to `playing`. -/
def undoLastMove (g : Game) : Game :=
  match g.moveHistory.getLast? with
  | none => g
  | some lastMove =>
    let hist := g.moveHistory.dropLast
    match lastMove.castling with
    | some cst =>
      -- both pieces are read before either is moved back
      let king := boardGet g.board lastMove.toSq.1 lastMove.toSq.2
      let rook := boardGet g.board cst.rookTo.1 cst.rookTo.2
      let b1 :=
        match king with
        | some k =>
          setPiece (setPiece g.board lastMove.fromSq.1 lastMove.fromSq.2
            (some (undoRestore k lastMove.fromSq.1 lastMove.fromSq.2)))
            lastMove.toSq.1 lastMove.toSq.2 none
        | none => g.board
      let b2 :=
        match rook with
        | some r =>
          setPiece (setPiece b1 cst.rookFrom.1 cst.rookFrom.2
            (some (undoRestore r cst.rookFrom.1 cst.rookFrom.2)))
            cst.rookTo.1 cst.rookTo.2 none
        | none => b1
      { g with board := b2, moveHistory := hist
               currentPlayer := ChessUtils.getOppositeColor g.currentPlayer
               gameState := GameStatus.playing }
    | none =>
      let b1 :=
        match boardGet g.board lastMove.toSq.1 lastMove.toSq.2 with
        | some piece =>
          setPiece (setPiece g.board lastMove.fromSq.1 lastMove.fromSq.2
            (some (undoRestore piece lastMove.fromSq.1 lastMove.fromSq.2)))
            lastMove.toSq.1 lastMove.toSq.2 none
        | none => g.board
      match lastMove.capturedPiece with
      | some cp =>
        let b2 := setPiece b1 lastMove.toSq.1 lastMove.toSq.2 (some cp)
        let capturedWhite :=
          if cp.color = Color.white then removeFirstByType g.capturedWhite cp.type
          else g.capturedWhite
        let capturedBlack :=
          if cp.color = Color.black then removeFirstByType g.capturedBlack cp.type
          else g.capturedBlack
        { board := b2, moveHistory := hist
          currentPlayer := ChessUtils.getOppositeColor g.currentPlayer
          gameState := GameStatus.playing
          capturedWhite := capturedWhite, capturedBlack := capturedBlack }
      | none =>
        { g with board := b1, moveHistory := hist
                 currentPlayer := ChessUtils.getOppositeColor g.currentPlayer
                 gameState := GameStatus.playing }

end ChessGame

/-- JS numbers as used for minimax scores: integers extended with
`-Infinity` / `Infinity` (the initial alpha/beta and fold values). -/
inductive XInt where
  | negInf
  | fin (z : Int)
  | posInf
deriving DecidableEq, Repr

namespace XInt

/-- The `<` comparison on scores. -/
def blt : XInt → XInt → Bool
  | negInf, negInf => false
  | negInf, _ => true
  | fin _, negInf => false
  | fin a, fin b => decide (a < b)
  | fin _, posInf => true
  | posInf, _ => false

/-- `Math.max`. -/
def bmax (a b : XInt) : XInt := if blt a b then b else a

/-- `Math.min`. -/
def bmin (a b : XInt) : XInt := if blt b a then b else a

end XInt

namespace ChessAI

inductive Difficulty where
  | easy
  | medium
  | hard
deriving DecidableEq, Repr

/-- `getMaxDepth()`: easy 2, medium 4, hard 6. -/
def getMaxDepth : Difficulty → Nat
  | Difficulty.easy => 2
  | Difficulty.medium => 4
  | Difficulty.hard => 6

/-- `this.pieceValues`. -/
def pieceValues : PieceType → Int
  | PieceType.pawn => 100
  | PieceType.knight => 320
  | PieceType.bishop => 330
  | PieceType.rook => 500
  | PieceType.queen => 900
  | PieceType.king => 20000

/-- The `pawn` table of `this.positionTables`. -/
def pawnTable : List (List Int) :=
  [[0, 0, 0, 0, 0, 0, 0, 0],
   [50, 50, 50, 50, 50, 50, 50, 50],
   [10, 10, 20, 30, 30, 20, 10, 10],
   [5, 5, 10, 25, 25, 10, 5, 5],
   [0, 0, 0, 20, 20, 0, 0, 0],
   [5, -5, -10, 0, 0, -10, -5, 5],
   [5, 10, 10, -20, -20, 10, 10, 5],
   [0, 0, 0, 0, 0, 0, 0, 0]]

/-- The `knight` table of `this.positionTables`. -/
def knightTable : List (List Int) :=
  [[-50, -40, -30, -30, -30, -30, -40, -50],
   [-40, -20, 0, 0, 0, 0, -20, -40],
   [-30, 0, 10, 15, 15, 10, 0, -30],
   [-30, 5, 15, 20, 20, 15, 5, -30],
   [-30, 0, 15, 20, 20, 15, 0, -30],
   [-30, 5, 10, 15, 15, 10, 5, -30],
   [-40, -20, 0, 5, 5, 0, -20, -40],
   [-50, -40, -30, -30, -30, -30, -40, -50]]

/-- The `bishop` table of `this.positionTables`. -/
def bishopTable : List (List Int) :=
  [[-20, -10, -10, -10, -10, -10, -10, -20],
   [-10, 0, 0, 0, 0, 0, 0, -10],
   [-10, 0, 5, 10, 10, 5, 0, -10],
   [-10, 5, 5, 10, 10, 5, 5, -10],
   [-10, 0, 10, 10, 10, 10, 0, -10],
   [-10, 10, 10, 10, 10, 10, 10, -10],
   [-10, 5, 0, 0, 0, 0, 5, -10],
   [-20, -10, -10, -10, -10, -10, -10, -20]]

/-- The `rook` table of `this.positionTables`. -/
def rookTable : List (List Int) :=
  [[0, 0, 0, 0, 0, 0, 0, 0],
   [5, 10, 10, 10, 10, 10, 10, 5],
   [-5, 0, 0, 0, 0, 0, 0, -5],
   [-5, 0, 0, 0, 0, 0, 0, -5],
   [-5, 0, 0, 0, 0, 0, 0, -5],
   [-5, 0, 0, 0, 0, 0, 0, -5],
   [-5, 0, 0, 0, 0, 0, 0, -5],
   [0, 0, 0, 5, 5, 0, 0, 0]]

/-- The `queen` table of `this.positionTables`. -/
def queenTable : List (List Int) :=
  [[-20, -10, -10, -5, -5, -10, -10, -20],
   [-10, 0, 0, 0, 0, 0, 0, -10],
   [-10, 0, 5, 5, 5, 5, 0, -10],
   [-5, 0, 5, 5, 5, 5, 0, -5],
   [0, 0, 5, 5, 5, 5, 0, -5],
   [-10, 5, 5, 5, 5, 5, 0, -10],
   [-10, 0, 5, 0, 0, 0, 0, -10],
   [-20, -10, -10, -5, -5, -10, -10, -20]]

/-- The `king` table of `this.positionTables`. -/
def kingTable : List (List Int) :=
  [[-30, -40, -40, -50, -50, -40, -40, -30],
   [-30, -40, -40, -50, -50, -40, -40, -30],
   [-30, -40, -40, -50, -50, -40, -40, -30],
   [-30, -40, -40, -50, -50, -40, -40, -30],
   [-20, -30, -30, -40, -40, -30, -30, -20],
   [-10, -20, -20, -20, -20, -20, -20, -10],
   [20, 20, 0, 0, 0, 0, 20, 20],
   [20, 30, 10, 0, 0, 10, 30, 20]]

/-- `this.positionTables` keyed by piece type. -/
def positionTables : PieceType → List (List Int)
  | PieceType.pawn => pawnTable
  | PieceType.knight => knightTable
  | PieceType.bishop => bishopTable
  | PieceType.rook => rookTable
  | PieceType.queen => queenTable
  | PieceType.king => kingTable

/-- `getPositionValue(piece, row, col)`: table lookup, row mirrored for white. -/
def getPositionValue (piece : ChessPiece) (row col : Int) : Int :=
  let table := positionTables piece.type
  let evalRow : Int := if piece.color = Color.white then 7 - row else row
  (table.getD evalRow.toNat []).getD col.toNat 0

/-- Is there NOT a piece of the given type at the square (the
`!board[r][c] || board[r][c].type !== t` development test)? -/
def notTypeAt (b : Board) (row col : Int) (t : PieceType) : Bool :=
  match boardGet b row col with
  | some p => decide (p.type ≠ t)
  | none => true

/-- `evaluateGameState(board)`: +30 per own piece on a center square, and
development bonuses for vacated minor-piece home squares — only when the AI
plays black. -/
def evaluateGameState (aiColor : Color) (b : Board) : Int :=
  let centerBonus :=
    ([((3 : Int), (3 : Int)), (3, 4), (4, 3), (4, 4)]).foldl
      (fun acc sq =>
        match boardGet b sq.1 sq.2 with
        | some p => if p.color = aiColor then acc + 30 else acc
        | none => acc) 0
  let developmentBonus :=
    if aiColor = Color.black then
      (if notTypeAt b 0 1 PieceType.knight then 20 else 0) +
      (if notTypeAt b 0 6 PieceType.knight then 20 else 0) +
      (if notTypeAt b 0 2 PieceType.bishop then 20 else 0) +
      (if notTypeAt b 0 5 PieceType.bishop then 20 else 0)
    else 0
  centerBonus + developmentBonus

/-- `evaluateBoard(board)`: material + positional value, own minus opponent,
plus `evaluateGameState`. -/
def evaluateBoard (aiColor : Color) (b : Board) : Int :=
  (squaresList.foldl
    (fun acc rc =>
      match boardGet b rc.1 rc.2 with
      | some p =>
        let totalValue := pieceValues p.type + getPositionValue p rc.1 rc.2
        if p.color = aiColor then acc + totalValue else acc - totalValue
      | none => acc) 0) + evaluateGameState aiColor b

/-- A move as built by `getAllValidMoves`: `{piece, from, to}`. -/
structure AIMove where
  piece : ChessPiece
  fromSq : Int × Int
  toSq : Int × Int
deriving DecidableEq, Repr

/-- `getAllValidMoves(board, color)`: every pseudo-legal move of every piece
of the color that passes `MoveValidator.isValidMove`, in scan order. -/
def getAllValidMoves (b : Board) (color : Color) : List AIMove :=
  squaresList.flatMap (fun rc =>
    match boardGet b rc.1 rc.2 with
    | some piece =>
      if piece.color = color then
        (piece.getValidMoves b).filterMap (fun mv =>
          if MoveValidator.isValidMove piece mv.1 mv.2 b then
            some { piece := piece, fromSq := (rc.1, rc.2), toSq := (mv.1, mv.2) }
          else none)
      else []
    | none => []
  )

/-- `ChessAI.makeMove(board, move)`: pure-board move application used inside
the search, with the castling rook displacement. -/
def aiMakeMove (b : Board) (move : AIMove) : Board :=
  let fromRow := move.fromSq.1
  let fromCol := move.fromSq.2
  let toRow := move.toSq.1
  let toCol := move.toSq.2
  match boardGet b fromRow fromCol with
  | none => setPiece (setPiece b toRow toCol none) fromRow fromCol none
  | some piece =>
    if piece.type = PieceType.king ∧ (toCol - fromCol).natAbs = 2 then
      let rookFromCol : Int := if toCol = 6 then 7 else 0
      let rookToCol : Int := if toCol = 6 then 5 else 3
      let b1 := setPiece (setPiece b toRow toCol
                  (some { piece with row := toRow, col := toCol })) fromRow fromCol none
      match boardGet b1 fromRow rookFromCol with
      | some rook =>
        setPiece (setPiece b1 fromRow rookToCol
          (some { rook with row := fromRow, col := rookToCol })) fromRow rookFromCol none
      | none => b1
    else
      setPiece (setPiece b toRow toCol
        (some { piece with row := toRow, col := toCol })) fromRow fromCol none

/-- Minimax result `{score, move}`. -/
structure MMResult where
  score : XInt
  move : Option AIMove
deriving Repr

/-- The maximizing `for (move of validMoves)` loop with alpha-beta break;
`recur` is the depth-decremented recursive call. -/
def maxLoop (recur : Board → XInt → XInt → Bool → MMResult) (b : Board) :
    List AIMove → XInt → XInt → XInt → Option AIMove → MMResult
  | [], _, _, maxScore, bestMove => { score := maxScore, move := bestMove }
  | move :: rest, alpha, beta, maxScore, bestMove =>
    let result := recur (aiMakeMove b move) alpha beta false
    let maxScore' := if XInt.blt maxScore result.score then result.score else maxScore
    let bestMove' := if XInt.blt maxScore result.score then some move else bestMove
    let alpha' := XInt.bmax alpha result.score
    if ¬ XInt.blt alpha' beta then { score := maxScore', move := bestMove' }
    else maxLoop recur b rest alpha' beta maxScore' bestMove'

/-- The minimizing loop, symmetric to `maxLoop`. -/
def minLoop (recur : Board → XInt → XInt → Bool → MMResult) (b : Board) :
    List AIMove → XInt → XInt → XInt → Option AIMove → MMResult
  | [], _, _, minScore, bestMove => { score := minScore, move := bestMove }
  | move :: rest, alpha, beta, minScore, bestMove =>
    let result := recur (aiMakeMove b move) alpha beta true
    let minScore' := if XInt.blt result.score minScore then result.score else minScore
    let bestMove' := if XInt.blt result.score minScore then some move else bestMove
    let beta' := XInt.bmin beta result.score
    if ¬ XInt.blt alpha beta' then { score := minScore', move := bestMove' }
    else minLoop recur b rest alpha beta' minScore' bestMove'

/-- `minimax(board, depth, alpha, beta, isMaximizing)`: evaluate at depth 0;
±10000 for a mated side to move, 0 for stalemate; otherwise the pruned
max/min loop over `getAllValidMoves`. -/
def minimax (aiColor : Color) (b : Board) : Nat → XInt → XInt → Bool → MMResult
  | 0, _, _, _ => { score := XInt.fin (evaluateBoard aiColor b), move := none }
  | depth + 1, alpha, beta, isMaximizing =>
    let currentPlayer := if isMaximizing then aiColor else ChessUtils.getOppositeColor aiColor
    let validMoves := getAllValidMoves b currentPlayer
    if validMoves.isEmpty then
      if MoveValidator.isKingInCheck b currentPlayer then
        { score := if isMaximizing then XInt.fin (-10000) else XInt.fin 10000, move := none }
      else { score := XInt.fin 0, move := none }
    else if isMaximizing then
      maxLoop (fun b' a' b'' m' => minimax aiColor b' depth a' b'' m')
        b validMoves alpha beta XInt.negInf none
    else
      minLoop (fun b' a' b'' m' => minimax aiColor b' depth a' b'' m')
        b validMoves alpha beta XInt.posInf none

/-- The random draws consumed by `getRandomMove`: whether `Math.random() < 0.3`
fired, and the two `Math.floor(Math.random() * length)` indices. -/
structure Rng where
  preferCapture : Bool
  captureIdx : Nat
  moveIdx : Nat

/-- `Math.floor(Math.random() * l.length)` indexing: some element of a
nonempty list. -/
def pickAt (l : List AIMove) (n : Nat) : Option AIMove :=
  l.get? (n % l.length)

/-- `getRandomMove(board)`: `null` when no legal move exists; with 30%
probability a random capture when one exists, otherwise a uniformly random
legal move. -/
def getRandomMove (aiColor : Color) (rng : Rng) (b : Board) : Option AIMove :=
  let validMoves := getAllValidMoves b aiColor
  if validMoves.isEmpty then none
  else
    let captures := validMoves.filter (fun move =>
      match boardGet b move.toSq.1 move.toSq.2 with
      | some targetPiece => decide (targetPiece.color ≠ aiColor)
      | none => false)
    if ¬ captures.isEmpty ∧ rng.preferCapture then pickAt captures rng.captureIdx
    else pickAt validMoves rng.moveIdx

/-- `getBestMove(board, gameState)` without the DOM/delay plumbing: `null`
while already thinking; random policy on easy; minimax otherwise. -/
def getBestMove (difficulty : Difficulty) (aiColor : Color) (thinking : Bool)
    (rng : Rng) (b : Board) : Option AIMove :=
  if thinking then none
  else if difficulty = Difficulty.easy then getRandomMove aiColor rng b
  else (minimax aiColor b (getMaxDepth difficulty) XInt.negInf XInt.posInf true).move

/-- The `try { ... } catch { ... }` of `getBestMove`: `search` is the outcome
of the `try` block (the minimax or random-move computation, which in JS may
throw); an exceptional outcome is replaced by the random-move fallback and
nothing propagates. -/
def getBestMoveRecovering (search : Except String (Option AIMove)) (aiColor : Color)
    (rng : Rng) (b : Board) : Option AIMove :=
  match search with
  | Except.ok bestMove => bestMove
  | Except.error _ => getRandomMove aiColor rng b

end ChessAI

/-! ## Spec-side definitions and general hypotheses -/

/-- A board with no pieces. -/
def emptyBoard : Board := fun _ _ => none

/-- A board holding only the two kings on their home squares. -/
def kingsOnlyBoard : Board := fun r c =>
  if r = 7 ∧ c = 4 then some (PieceFactory.mkPiece PieceType.king Color.white 7 4)
  else if r = 0 ∧ c = 4 then some (PieceFactory.mkPiece PieceType.king Color.black 0 4)
  else none

/-- Every piece's `row`/`col` fields match the square it occupies — the
ownership invariant maintained by the board (pieces are relocated through
`moveTo`/simulation, which update the fields). -/
def Consistent (b : Board) : Prop :=
  ∀ row col p, boardGet b row col = some p → p.row = row ∧ p.col = col

/-- The board holds no king of the given color. -/
def NoKingOf (b : Board) (c : Color) : Prop :=
  ∀ row col p, boardGet b row col = some p → ¬ (p.type = PieceType.king ∧ p.color = c)

/-- All pieces on the board, in scan order. -/
def pieceList (b : Board) : List ChessPiece :=
  squaresList.filterMap (fun rc => boardGet b rc.1 rc.2)

/-- Exactly one white king and one black king on the board (the invariant of
every reachable game state). -/
def OneKingEach (b : Board) : Prop :=
  (pieceList b).countP (fun p => decide (p.type = PieceType.king ∧ p.color = Color.white)) = 1 ∧
  (pieceList b).countP (fun p => decide (p.type = PieceType.king ∧ p.color = Color.black)) = 1

/-- The insufficient-material condition as the spec words it: exactly two
kings (two pieces, all kings), or exactly three pieces where the single
non-king piece is a bishop or a knight. -/
def insufficientMaterialSpec (b : Board) : Prop :=
  ((pieceList b).length = 2 ∧ ∀ p ∈ pieceList b, p.type = PieceType.king) ∨
  ((pieceList b).length = 3 ∧
    ∃ q, (pieceList b).filter (fun p => decide (¬ p.type = PieceType.king)) = [q] ∧
      (q.type = PieceType.bishop ∨ q.type = PieceType.knight))

/-- The pawn move set as the spec words it: the square one step forward when
empty; additionally the two-step square from the starting rank when both are
empty; each forward diagonal only when an enemy piece occupies it. -/
def pawnMovesSpec (b : Board) (p : ChessPiece) (t : Int × Int) : Prop :=
  let direction : Int := if p.color = Color.white then -1 else 1
  let startRow : Int := if p.color = Color.white then 6 else 1
  (t = (p.row + direction, p.col) ∧
    ChessUtils.isValidSquare (p.row + direction) p.col = true ∧
    boardGet b (p.row + direction) p.col = none) ∨
  (t = (p.row + direction + direction, p.col) ∧ p.row = startRow ∧
    ChessUtils.isValidSquare (p.row + direction) p.col = true ∧
    boardGet b (p.row + direction) p.col = none ∧
    ChessUtils.isValidSquare (p.row + direction + direction) p.col = true ∧
    boardGet b (p.row + direction + direction) p.col = none) ∨
  (∃ colOffset ∈ ([-1, 1] : List Int),
    t = (p.row + direction, p.col + colOffset) ∧
    ChessUtils.isValidSquare (p.row + direction) (p.col + colOffset) = true ∧
    ∃ e, boardGet b (p.row + direction) (p.col + colOffset) = some e ∧ e.color ≠ p.color)

/-- "Simulating the king alone on that square": the king (read from its home
square, column 4 of the back rank) is removed and placed on the target
column, nothing else moves. -/
def kingAloneSim (b : Board) (bk targetCol : Int) : Board :=
  match boardGet b bk 4 with
  | some king =>
    setPiece (setPiece b bk targetCol (some { king with row := bk, col := targetCol }))
      bk 4 none
  | none => b

/-- The castling conditions as the spec words them: king and the relevant
rook unmoved on their home squares, the squares strictly between them empty,
the king not currently in check, and every transit square of the king
(f/g file kingside, d/c file queenside, destination included) free of attack
when the king alone is simulated there. -/
def castlingSpec (b : Board) (c : Color) (side : ChessGame.CastleSide) : Prop :=
  let bk : Int := if c = Color.white then 7 else 0
  let rookCol : Int := if side = ChessGame.CastleSide.kingside then 7 else 0
  let betweenCols : List Int :=
    if side = ChessGame.CastleSide.kingside then [5, 6] else [1, 2, 3]
  let transitCols : List Int :=
    if side = ChessGame.CastleSide.kingside then [5, 6] else [3, 2]
  (∃ k, boardGet b bk 4 = some k ∧ k.type = PieceType.king ∧ k.color = c ∧
    k.hasMoved = false) ∧
  (∃ r, boardGet b bk rookCol = some r ∧ r.type = PieceType.rook ∧ r.color = c ∧
    r.hasMoved = false) ∧
  (∀ cc ∈ betweenCols, boardGet b bk cc = none) ∧
  MoveValidator.isKingInCheck b c = false ∧
  (∀ cc ∈ transitCols, MoveValidator.isKingInCheck (kingAloneSim b bk cc) c = false)

/-- Context for a kingside castling analysis: consistent board, unique king
of the color on (back rank, 4), rook on (back rank, 7), the two between
squares empty, and the king not currently in check. -/
structure KSSetup (b : Board) (c : Color) (bk : Int) (k R : ChessPiece) : Prop where
  hbk : bk = (if c = Color.white then 7 else 0)
  hcons : Consistent b
  hk : boardGet b bk 4 = some k
  hkt : k.type = PieceType.king
  hkc : k.color = c
  huniq : ∀ r c' p, boardGet b r c' = some p → p.type = PieceType.king → p.color = c →
    r = bk ∧ c' = 4
  hR : boardGet b bk 7 = some R
  hRt : R.type = PieceType.rook
  hRc : R.color = c
  h5 : boardGet b bk 5 = none
  h6 : boardGet b bk 6 = none
  hnc : MoveValidator.isKingInCheck b c = false

/-- The king-alone board for the kingside destination. -/
def ksB1 (b : Board) (bk : Int) (k : ChessPiece) : Board :=
  setPiece (setPiece b bk 6 (some { k with row := bk, col := 6 })) bk 4 none

/-- The full kingside castling simulation board (king to g, rook to f). -/
def ksB2 (b : Board) (bk : Int) (k R : ChessPiece) : Board :=
  setPiece (setPiece (ksB1 b bk k) bk 5 (some { R with row := bk, col := 5 })) bk 7 none

/-- The eight ray directions of the sliding generators. -/
def rayDirs : List (Int × Int) :=
  [(0, 1), (0, -1), (1, 0), (-1, 0), (1, 1), (1, -1), (-1, 1), (-1, -1)]

/-- Context for a queenside castling analysis: consistent board, unique king
of the color on (back rank, 4), rook on (back rank, 0), the three between
squares empty, and the king not currently in check. -/
structure QSSetup (b : Board) (c : Color) (bk : Int) (k R : ChessPiece) : Prop where
  hbk : bk = (if c = Color.white then 7 else 0)
  hcons : Consistent b
  hk : boardGet b bk 4 = some k
  hkt : k.type = PieceType.king
  hkc : k.color = c
  huniq : ∀ r c' p, boardGet b r c' = some p → p.type = PieceType.king → p.color = c →
    r = bk ∧ c' = 4
  hR : boardGet b bk 0 = some R
  hRt : R.type = PieceType.rook
  hRc : R.color = c
  he1 : boardGet b bk 1 = none
  he2 : boardGet b bk 2 = none
  he3 : boardGet b bk 3 = none
  hnc : MoveValidator.isKingInCheck b c = false

/-- The king-alone board for the queenside destination. -/
def qsB1 (b : Board) (bk : Int) (k : ChessPiece) : Board :=
  setPiece (setPiece b bk 2 (some { k with row := bk, col := 2 })) bk 4 none

/-- The full queenside castling simulation board (king to c, rook to d). -/
def qsB2 (b : Board) (bk : Int) (k R : ChessPiece) : Board :=
  setPiece (setPiece (qsB1 b bk k) bk 3 (some { R with row := bk, col := 3 })) bk 0 none

/-- A concrete castling position: white king e1 and rook h1 (both unmoved),
black king e8, all other squares empty. -/
def c2WitnessBoard : Board := fun r c =>
  if r = 7 ∧ c = 4 then some (PieceFactory.mkPiece PieceType.king Color.white 7 4)
  else if r = 7 ∧ c = 7 then some (PieceFactory.mkPiece PieceType.rook Color.white 7 7)
  else if r = 0 ∧ c = 4 then some (PieceFactory.mkPiece PieceType.king Color.black 0 4)
  else none

/-! ## Helper lemmas -/

lemma pickAt_mem_of_ne_nil {l : List ChessAI.AIMove} (h : l ≠ []) (n : Nat) :
    ∃ m, ChessAI.pickAt l n = some m ∧ m ∈ l := by
  have hlen : 0 < l.length := List.length_pos.mpr h
  have hlt : n % l.length < l.length := Nat.mod_lt _ hlen
  exact ⟨l.get ⟨n % l.length, hlt⟩, List.get?_eq_get hlt, List.get_mem _ _ _⟩

lemma not_isEmpty_ne_nil {α : Type} {l : List α} (h : ¬ l.isEmpty = true) : l ≠ [] :=
  fun hn => h (by simp [hn])

/-- `getRandomMove` returns a member of `getAllValidMoves`, and `none` exactly
when that list is empty. -/
lemma getRandomMove_legal (c : Color) (rng : ChessAI.Rng) (b : Board) :
    match ChessAI.getRandomMove c rng b with
    | some m => m ∈ ChessAI.getAllValidMoves b c
    | none => ChessAI.getAllValidMoves b c = [] := by
  cases hr : ChessAI.getRandomMove c rng b with
  | none =>
    unfold ChessAI.getRandomMove at hr
    dsimp only at hr
    split at hr
    · next he => exact List.isEmpty_iff.mp he
    · next he =>
      split at hr
      · next hcap =>
        obtain ⟨m, hm, _⟩ := pickAt_mem_of_ne_nil (not_isEmpty_ne_nil hcap.1) rng.captureIdx
        rw [hm] at hr
        exact absurd hr (by simp)
      · next hcap =>
        obtain ⟨m, hm, _⟩ := pickAt_mem_of_ne_nil (not_isEmpty_ne_nil he) rng.moveIdx
        rw [hm] at hr
        exact absurd hr (by simp)
  | some m =>
    unfold ChessAI.getRandomMove at hr
    dsimp only at hr
    split at hr
    · next he => exact absurd hr (by simp)
    · next he =>
      split at hr
      · next hcap =>
        unfold ChessAI.pickAt at hr
        exact (List.mem_filter.mp (List.get?_mem hr)).1
      · next hcap =>
        unfold ChessAI.pickAt at hr
        exact List.get?_mem hr

/-! ## Claim theorems -/

set_option maxRecDepth 100000

/-- C3: for medium and hard difficulty, `getBestMove` returns the move
selected by alpha-beta minimax at the configured depth (easy 2, medium 4,
hard 6 plies), and only easy difficulty uses the random-move policy
instead of search. -/
theorem c3_minimax_dispatch (d : ChessAI.Difficulty) (c : Color) (rng : ChessAI.Rng)
    (b : Board) (h : d = ChessAI.Difficulty.medium ∨ d = ChessAI.Difficulty.hard) :
    ChessAI.getBestMove d c false rng b =
      (ChessAI.minimax c b (ChessAI.getMaxDepth d) XInt.negInf XInt.posInf true).move ∧
    ChessAI.getMaxDepth ChessAI.Difficulty.easy = 2 ∧
    ChessAI.getMaxDepth ChessAI.Difficulty.medium = 4 ∧
    ChessAI.getMaxDepth ChessAI.Difficulty.hard = 6 ∧
    ChessAI.getBestMove ChessAI.Difficulty.easy c false rng b =
      ChessAI.getRandomMove c rng b := by
  rcases h with h | h <;> subst h <;> exact ⟨rfl, rfl, rfl, rfl, rfl⟩

/-- Witness for C3 at medium difficulty on the empty board. -/
theorem c3_minimax_dispatch_witness :
    (ChessAI.Difficulty.medium = ChessAI.Difficulty.medium ∨
      ChessAI.Difficulty.medium = ChessAI.Difficulty.hard) ∧
    (ChessAI.getBestMove ChessAI.Difficulty.medium Color.white false ⟨false, 0, 0⟩ emptyBoard =
      (ChessAI.minimax Color.white emptyBoard
        (ChessAI.getMaxDepth ChessAI.Difficulty.medium) XInt.negInf XInt.posInf true).move ∧
    ChessAI.getMaxDepth ChessAI.Difficulty.easy = 2 ∧
    ChessAI.getMaxDepth ChessAI.Difficulty.medium = 4 ∧
    ChessAI.getMaxDepth ChessAI.Difficulty.hard = 6 ∧
    ChessAI.getBestMove ChessAI.Difficulty.easy Color.white false ⟨false, 0, 0⟩ emptyBoard =
      ChessAI.getRandomMove Color.white ⟨false, 0, 0⟩ emptyBoard) :=
  ⟨Or.inl rfl,
    c3_minimax_dispatch ChessAI.Difficulty.medium Color.white ⟨false, 0, 0⟩ emptyBoard
      (Or.inl rfl)⟩

/-- C4 (bug evidence): playing the pawn move (6,4)→(5,4) from the initial
position and undoing it does NOT restore the prior board: the pawn comes
back with `hasMoved = true` and `moveCount = 1` although it started with
`hasMoved = false` and `moveCount = 0` (while square, player and history are
restored). -/
theorem c4_undo_does_not_restore_flags :
    ((ChessGame.gameApplyMove ChessGame.initialGame 6 4 5 4 PieceType.queen).map
      (fun g1 =>
        ((boardGet (ChessGame.undoLastMove g1).board 6 4).map
          (fun p => (p.type, p.hasMoved, p.moveCount)),
         (ChessGame.undoLastMove g1).currentPlayer,
         (ChessGame.undoLastMove g1).moveHistory.length)))
      = some (some (PieceType.pawn, true, 1), Color.white, 0) ∧
    (boardGet ChessGame.initialGame.board 6 4).map (fun p => (p.type, p.hasMoved, p.moveCount))
      = some (PieceType.pawn, false, 0) := by
  constructor
  · decide
  · decide

/-- C6: an exceptional outcome of the search inside `getBestMove` is caught
and replaced by the easy-mode random-move result, and even then the returned
move is legal (or `null` exactly when no legal move exists) — nothing
propagates to the caller. -/
theorem c6_search_failure_falls_back (e : String) (c : Color) (rng : ChessAI.Rng)
    (b : Board) :
    ChessAI.getBestMoveRecovering (Except.error e) c rng b =
      ChessAI.getRandomMove c rng b ∧
    (match ChessAI.getBestMoveRecovering (Except.error e) c rng b with
     | some m => m ∈ ChessAI.getAllValidMoves b c
     | none => ChessAI.getAllValidMoves b c = []) := by
  refine ⟨rfl, ?_⟩
  show (match ChessAI.getRandomMove c rng b with
        | some m => m ∈ ChessAI.getAllValidMoves b c
        | none => ChessAI.getAllValidMoves b c = [])
  exact getRandomMove_legal c rng b

/-- C8: in the initial position, white has exactly 20 legal moves (16 pawn
moves and 4 knight moves) and black, were it to move, likewise. -/
theorem c8_initial_position_twenty_moves :
    (ChessAI.getAllValidMoves PieceFactory.createInitialBoard Color.white).length = 20 ∧
    ((ChessAI.getAllValidMoves PieceFactory.createInitialBoard Color.white).filter
      (fun m => m.piece.type = PieceType.pawn)).length = 16 ∧
    ((ChessAI.getAllValidMoves PieceFactory.createInitialBoard Color.white).filter
      (fun m => m.piece.type = PieceType.knight)).length = 4 ∧
    (ChessAI.getAllValidMoves PieceFactory.createInitialBoard Color.black).length = 20 ∧
    ((ChessAI.getAllValidMoves PieceFactory.createInitialBoard Color.black).filter
      (fun m => m.piece.type = PieceType.pawn)).length = 16 ∧
    ((ChessAI.getAllValidMoves PieceFactory.createInitialBoard Color.black).filter
      (fun m => m.piece.type = PieceType.knight)).length = 4 := by
  refine ⟨?_, ?_, ?_, ?_, ?_, ?_⟩ <;> decide

/-- C10: on a board with no king of the given color, `findKing` returns
`none`, `isKingInCheck` returns `false` (no error), and consequently
`isCheckmate` is `false` — a kingless side is treated as not in check. -/
theorem c10_kingless_side_not_in_check (b : Board) (c : Color) (h : NoKingOf b c) :
    MoveValidator.findKing b c = none ∧
    MoveValidator.isKingInCheck b c = false ∧
    MoveValidator.isCheckmate b c = false := by
  have hfk : MoveValidator.findKing b c = none := by
    unfold MoveValidator.findKing
    rw [List.findSome?_eq_none_iff]
    intro rc _
    cases hg : boardGet b rc.1 rc.2 with
    | none => rfl
    | some p =>
      simp only []
      rw [if_neg (h rc.1 rc.2 p hg)]
  have hic : MoveValidator.isKingInCheck b c = false := by
    unfold MoveValidator.isKingInCheck
    rw [hfk]
  refine ⟨hfk, hic, ?_⟩
  unfold MoveValidator.isCheckmate
  rw [hic]
  rfl

/-- Witness for C10 on the empty board. -/
theorem c10_kingless_side_not_in_check_witness :
    NoKingOf emptyBoard Color.white ∧
    (MoveValidator.findKing emptyBoard Color.white = none ∧
     MoveValidator.isKingInCheck emptyBoard Color.white = false ∧
     MoveValidator.isCheckmate emptyBoard Color.white = false) := by
  have h : NoKingOf emptyBoard Color.white := by
    intro r c p hp
    simp [boardGet, emptyBoard] at hp
  exact ⟨h, c10_kingless_side_not_in_check emptyBoard Color.white h⟩

lemma countP_king_color_split (l : List ChessPiece) :
    l.countP (fun p => decide (p.type = PieceType.king)) =
      l.countP (fun p => decide (p.type = PieceType.king ∧ p.color = Color.white)) +
      l.countP (fun p => decide (p.type = PieceType.king ∧ p.color = Color.black)) := by
  induction l with
  | nil => rfl
  | cons p rest ih =>
    by_cases hk : p.type = PieceType.king
    · cases hc : p.color <;> simp [List.countP_cons, hk, hc, ih] <;> omega
    · simp [List.countP_cons, hk, ih]

lemma length_filter_not_king (l : List ChessPiece) :
    (l.filter (fun p => decide (¬ p.type = PieceType.king))).length +
      l.countP (fun p => decide (p.type = PieceType.king)) = l.length := by
  induction l with
  | nil => rfl
  | cons p rest ih =>
    simp only [List.filter_cons, List.countP_cons, List.length_cons, decide_not] at ih ⊢
    by_cases hk : p.type = PieceType.king <;> simp [hk] <;> omega

/-- C7: on any board with one king per color, `isInsufficientMaterial` holds
exactly for two lone kings, or for exactly three pieces whose single
non-king piece is a bishop or a knight, and fails for every other piece
configuration. -/
theorem c7_insufficient_material_characterization (b : Board) (h : OneKingEach b) :
    ChessGame.isInsufficientMaterial b = true ↔ insufficientMaterialSpec b := by
  have hmap : ChessGame.boardPieceTypes b = (pieceList b).map (fun p => p.type) := by
    unfold ChessGame.boardPieceTypes pieceList
    exact (List.map_filterMap _ _ _).symm
  have hkingcount : (pieceList b).countP (fun p => decide (p.type = PieceType.king)) = 2 := by
    rw [countP_king_color_split, h.1, h.2]
  unfold ChessGame.isInsufficientMaterial insufficientMaterialSpec
  rw [hmap]
  simp only [List.length_map]
  by_cases h2 : (pieceList b).length = 2
  · rw [if_pos h2]
    constructor
    · intro _
      left
      refine ⟨h2, fun p hp => ?_⟩
      have hall := List.countP_eq_length.mp (by rw [hkingcount, h2])
      simpa using hall p hp
    · intro _
      rfl
  · rw [if_neg h2]
    by_cases h3 : (pieceList b).length = 3
    · rw [if_pos h3]
      have hflen : ((pieceList b).filter (fun p => decide (¬ p.type = PieceType.king))).length = 1 := by
        have := length_filter_not_king (pieceList b)
        omega
      obtain ⟨q, hq⟩ := List.length_eq_one.mp hflen
      have hqtype : ¬ q.type = PieceType.king := by
        have hqmem : q ∈ (pieceList b).filter (fun p => decide (¬ p.type = PieceType.king)) := by
          rw [hq]; exact List.mem_singleton_self q
        simpa using (List.mem_filter.mp hqmem).2
      have hcontains : ∀ ty : PieceType,
          ((((pieceList b).map (fun p => p.type)).filter
            (fun t => decide (¬ t = PieceType.king))).contains ty) = true ↔ ty = q.type := by
        intro ty
        rw [List.filter_map]
        have hcomp : ((fun t => decide (¬ t = PieceType.king)) ∘ (fun p : ChessPiece => p.type))
            = (fun p : ChessPiece => decide (¬ p.type = PieceType.king)) := rfl
        rw [hcomp, hq]
        simp
      constructor
      · intro hcode
        right
        refine ⟨h3, q, hq, ?_⟩
        rw [Bool.or_eq_true] at hcode
        rcases hcode with hb | hk
        · exact Or.inl ((hcontains PieceType.bishop).mp hb).symm
        · exact Or.inr ((hcontains PieceType.knight).mp hk).symm
      · rintro (⟨hlen2, _⟩ | ⟨_, q', hq', hbk⟩)
        · exact absurd hlen2 h2
        · have hqq : q' = q := by
            rw [hq] at hq'
            simpa using hq'.symm
          subst hqq
          rw [Bool.or_eq_true]
          rcases hbk with hb | hk
          · exact Or.inl ((hcontains PieceType.bishop).mpr hb.symm)
          · exact Or.inr ((hcontains PieceType.knight).mpr hk.symm)
    · rw [if_neg h3]
      constructor
      · intro hfalse
        exact absurd hfalse (by simp)
      · rintro (⟨hlen, _⟩ | ⟨hlen, _⟩) <;> omega

/-- Witness for C7 on the two-kings board. -/
theorem c7_insufficient_material_characterization_witness :
    OneKingEach kingsOnlyBoard ∧
    (ChessGame.isInsufficientMaterial kingsOnlyBoard = true ↔
      insufficientMaterialSpec kingsOnlyBoard) :=
  ⟨by unfold OneKingEach; decide,
   c7_insufficient_material_characterization kingsOnlyBoard (by unfold OneKingEach; decide)⟩

/-- Characterization of the generated pawn moves (shared by C9 and the
castling analysis). -/
lemma getPawnMoves_mem_iff (b : Board) (p : ChessPiece) (t : Int × Int) :
    t ∈ ChessPiece.getPawnMoves p b ↔ pawnMovesSpec b p t := by
  unfold ChessPiece.getPawnMoves pawnMovesSpec
  dsimp only
  by_cases hw : p.color = Color.white
  on_goal 1 => simp only [hw, eq_self_iff_true, if_true]
  on_goal 2 => simp only [if_neg hw]
  all_goals (
    rw [List.mem_append]
    constructor
    · rintro (hf | hc)
      · split at hf
        · next h1 =>
          rw [List.mem_cons] at hf
          rcases hf with heq | hrest
          · exact Or.inl ⟨heq, h1.1, h1.2⟩
          · split at hrest
            · next h2 =>
              rw [List.mem_singleton] at hrest
              exact Or.inr (Or.inl ⟨hrest, h2.1, h1.1, h1.2, h2.2.1, h2.2.2⟩)
            · next => simp at hrest
        · next h1 => simp at hf
      · rw [List.mem_filterMap] at hc
        obtain ⟨off, hoff, heq⟩ := hc
        split at heq
        · next hv =>
          split at heq
          · next target hbg =>
            split at heq
            · next hne =>
              rw [Option.some.injEq] at heq
              exact Or.inr (Or.inr ⟨off, hoff, heq.symm, hv, target, hbg, hne⟩)
            · next => exact absurd heq (by simp)
          · next hbg => exact absurd heq (by simp)
        · next => exact absurd heq (by simp)
    · rintro (⟨heq, hv, hempty⟩ | ⟨heq, hstart, hv1, he1, hv2, he2⟩ |
        ⟨off, hoff, heq, hv, e, hbg, hec⟩)
      · left
        rw [if_pos ⟨hv, hempty⟩, List.mem_cons]
        exact Or.inl heq
      · left
        rw [if_pos ⟨hv1, he1⟩, List.mem_cons]
        right
        rw [if_pos ⟨hstart, hv2, he2⟩, List.mem_singleton]
        exact heq
      · right
        rw [List.mem_filterMap]
        refine ⟨off, hoff, ?_⟩
        rw [if_pos hv, hbg]
        subst heq
        simp [hec])

/-- C9: the generated pawn moves are exactly the spec's set — in particular a
diagonal square is generated only when an enemy piece stands on it, so no
en-passant destination is ever generated. -/
theorem c9_pawn_moves_exact (b : Board) (p : ChessPiece) (t : Int × Int) :
    t ∈ ChessPiece.getPawnMoves p b ↔ pawnMovesSpec b p t :=
  getPawnMoves_mem_iff b p t

lemma maxLoop_score_fin {recur : Board → XInt → XInt → Bool → ChessAI.MMResult} {b : Board}
    (hrec : ∀ b' a' b'' m', ∃ z, (recur b' a' b'' m').score = XInt.fin z) :
    ∀ (moves : List ChessAI.AIMove) (alpha beta : XInt) (z0 : Int)
      (best : Option ChessAI.AIMove),
      ∃ z, (ChessAI.maxLoop recur b moves alpha beta (XInt.fin z0) best).score = XInt.fin z := by
  intro moves
  induction moves with
  | nil => intro alpha beta z0 best; exact ⟨z0, rfl⟩
  | cons mv rest ih =>
    intro alpha beta z0 best
    obtain ⟨s, hs⟩ := hrec (ChessAI.aiMakeMove b mv) alpha beta false
    unfold ChessAI.maxLoop
    dsimp only
    rw [hs]
    by_cases hblt : XInt.blt (XInt.fin z0) (XInt.fin s) = true
    · simp only [hblt, if_true]
      split
      · exact ⟨s, rfl⟩
      · exact ih _ _ s _
    · simp only [hblt, Bool.false_eq_true, if_false]
      split
      · exact ⟨z0, rfl⟩
      · exact ih _ _ z0 _

lemma minLoop_score_fin {recur : Board → XInt → XInt → Bool → ChessAI.MMResult} {b : Board}
    (hrec : ∀ b' a' b'' m', ∃ z, (recur b' a' b'' m').score = XInt.fin z) :
    ∀ (moves : List ChessAI.AIMove) (alpha beta : XInt) (z0 : Int)
      (best : Option ChessAI.AIMove),
      ∃ z, (ChessAI.minLoop recur b moves alpha beta (XInt.fin z0) best).score = XInt.fin z := by
  intro moves
  induction moves with
  | nil => intro alpha beta z0 best; exact ⟨z0, rfl⟩
  | cons mv rest ih =>
    intro alpha beta z0 best
    obtain ⟨s, hs⟩ := hrec (ChessAI.aiMakeMove b mv) alpha beta true
    unfold ChessAI.minLoop
    dsimp only
    rw [hs]
    by_cases hblt : XInt.blt (XInt.fin s) (XInt.fin z0) = true
    · simp only [hblt, if_true]
      split
      · exact ⟨s, rfl⟩
      · exact ih _ _ s _
    · simp only [hblt, Bool.false_eq_true, if_false]
      split
      · exact ⟨z0, rfl⟩
      · exact ih _ _ z0 _

lemma maxLoop_start_score_fin {recur : Board → XInt → XInt → Bool → ChessAI.MMResult}
    {b : Board}
    (hrec : ∀ b' a' b'' m', ∃ z, (recur b' a' b'' m').score = XInt.fin z)
    (mv : ChessAI.AIMove) (rest : List ChessAI.AIMove) (alpha beta : XInt) :
    ∃ z, (ChessAI.maxLoop recur b (mv :: rest) alpha beta XInt.negInf none).score =
      XInt.fin z := by
  obtain ⟨s, hs⟩ := hrec (ChessAI.aiMakeMove b mv) alpha beta false
  unfold ChessAI.maxLoop
  dsimp only
  rw [hs]
  simp only [show XInt.blt XInt.negInf (XInt.fin s) = true from rfl, if_true]
  split
  · exact ⟨s, rfl⟩
  · exact maxLoop_score_fin hrec rest _ _ s _

lemma minLoop_start_score_fin {recur : Board → XInt → XInt → Bool → ChessAI.MMResult}
    {b : Board}
    (hrec : ∀ b' a' b'' m', ∃ z, (recur b' a' b'' m').score = XInt.fin z)
    (mv : ChessAI.AIMove) (rest : List ChessAI.AIMove) (alpha beta : XInt) :
    ∃ z, (ChessAI.minLoop recur b (mv :: rest) alpha beta XInt.posInf none).score =
      XInt.fin z := by
  obtain ⟨s, hs⟩ := hrec (ChessAI.aiMakeMove b mv) alpha beta true
  unfold ChessAI.minLoop
  dsimp only
  rw [hs]
  simp only [show XInt.blt (XInt.fin s) XInt.posInf = true from rfl, if_true]
  split
  · exact ⟨s, rfl⟩
  · exact minLoop_score_fin hrec rest _ _ s _

/-- Minimax always produces a finite score: leaf evaluations, the mate and
stalemate scores, and folds over them are all finite. -/
lemma minimax_score_fin (aiColor : Color) :
    ∀ (depth : Nat) (b : Board) (alpha beta : XInt) (maximizing : Bool),
      ∃ z, (ChessAI.minimax aiColor b depth alpha beta maximizing).score = XInt.fin z := by
  intro depth
  induction depth with
  | zero => intro b alpha beta maximizing; exact ⟨_, rfl⟩
  | succ d ih =>
    intro b alpha beta maximizing
    unfold ChessAI.minimax
    cases maximizing with
    | true =>
      simp only [eq_self_iff_true, if_true]
      cases hm : ChessAI.getAllValidMoves b aiColor with
      | nil =>
        simp only [List.isEmpty_nil, if_true]
        split
        · exact ⟨-10000, rfl⟩
        · exact ⟨0, rfl⟩
      | cons mv rest =>
        simp only [List.isEmpty_cons, Bool.false_eq_true, if_false]
        exact maxLoop_start_score_fin (fun b' a' b'' m' => ih b' a' b'' m') mv rest alpha beta
    | false =>
      simp only [Bool.false_eq_true, if_false]
      cases hm : ChessAI.getAllValidMoves b (ChessUtils.getOppositeColor aiColor) with
      | nil =>
        simp only [List.isEmpty_nil, if_true]
        split
        · exact ⟨10000, rfl⟩
        · exact ⟨0, rfl⟩
      | cons mv rest =>
        simp only [List.isEmpty_cons, Bool.false_eq_true, if_false]
        exact minLoop_start_score_fin (fun b' a' b'' m' => ih b' a' b'' m') mv rest alpha beta

lemma maxLoop_move_mem {recur : Board → XInt → XInt → Bool → ChessAI.MMResult} {b : Board}
    (S : List ChessAI.AIMove) :
    ∀ (moves : List ChessAI.AIMove) (alpha beta acc : XInt) (m0 : ChessAI.AIMove),
      m0 ∈ S → (∀ x ∈ moves, x ∈ S) →
      ∃ m, (ChessAI.maxLoop recur b moves alpha beta acc (some m0)).move = some m ∧ m ∈ S := by
  intro moves
  induction moves with
  | nil => intro alpha beta acc m0 hm0 _; exact ⟨m0, rfl, hm0⟩
  | cons mv rest ih =>
    intro alpha beta acc m0 hm0 hmv
    unfold ChessAI.maxLoop
    dsimp only
    by_cases hblt : XInt.blt acc (recur (ChessAI.aiMakeMove b mv) alpha beta false).score = true
    · simp only [hblt, if_true]
      split
      · exact ⟨mv, rfl, hmv mv (List.mem_cons_self mv rest)⟩
      · exact ih _ _ _ mv (hmv mv (List.mem_cons_self mv rest))
          (fun x hx => hmv x (List.mem_cons_of_mem mv hx))
    · simp only [hblt, Bool.false_eq_true, if_false]
      split
      · exact ⟨m0, rfl, hm0⟩
      · exact ih _ _ _ m0 hm0 (fun x hx => hmv x (List.mem_cons_of_mem mv hx))

lemma maxLoop_start_move_mem {recur : Board → XInt → XInt → Bool → ChessAI.MMResult}
    {b : Board}
    (hrec : ∀ b' a' b'' m', ∃ z, (recur b' a' b'' m').score = XInt.fin z)
    (mv : ChessAI.AIMove) (rest : List ChessAI.AIMove) (alpha beta : XInt) :
    ∃ m, (ChessAI.maxLoop recur b (mv :: rest) alpha beta XInt.negInf none).move = some m ∧
      m ∈ mv :: rest := by
  obtain ⟨s, hs⟩ := hrec (ChessAI.aiMakeMove b mv) alpha beta false
  unfold ChessAI.maxLoop
  dsimp only
  rw [hs]
  simp only [show XInt.blt XInt.negInf (XInt.fin s) = true from rfl, if_true]
  split
  · exact ⟨mv, rfl, List.mem_cons_self mv rest⟩
  · exact maxLoop_move_mem (mv :: rest) rest _ _ _ mv (List.mem_cons_self mv rest)
      (fun x hx => List.mem_cons_of_mem mv hx)

/-- The top-level maximizing minimax call returns a member of the legal-move
list, or `none` exactly when that list is empty. -/
lemma minimax_top_move_legal (aiColor : Color) (b : Board) (depth : Nat)
    (alpha beta : XInt) :
    match (ChessAI.minimax aiColor b (depth + 1) alpha beta true).move with
    | some m => m ∈ ChessAI.getAllValidMoves b aiColor
    | none => ChessAI.getAllValidMoves b aiColor = [] := by
  unfold ChessAI.minimax
  simp only [eq_self_iff_true, if_true]
  cases hm : ChessAI.getAllValidMoves b aiColor with
  | nil =>
    simp only [List.isEmpty_nil, if_true]
    have hnone : (if MoveValidator.isKingInCheck b aiColor = true then
        ({ score := XInt.fin (-10000), move := none } : ChessAI.MMResult)
      else { score := XInt.fin 0, move := none }).move = none := by
      split <;> rfl
    rw [hnone]
    trivial
  | cons mv rest =>
    simp only [List.isEmpty_cons, Bool.false_eq_true, if_false]
    obtain ⟨m, hsome, hmem⟩ := maxLoop_start_move_mem
      (fun b' a' b'' m' => minimax_score_fin aiColor depth b' a' b'' m') mv rest alpha beta
    rw [hsome]
    exact hmem

/-- C5: at every difficulty, on any board, the AI's chosen move is a member
of the legal-move list for its color, and it returns `null` only when that
list is empty. -/
theorem c5_ai_move_always_legal (d : ChessAI.Difficulty) (c : Color) (rng : ChessAI.Rng)
    (b : Board) :
    match ChessAI.getBestMove d c false rng b with
    | some m => m ∈ ChessAI.getAllValidMoves b c
    | none => ChessAI.getAllValidMoves b c = [] := by
  cases d with
  | easy =>
    show (match ChessAI.getRandomMove c rng b with
          | some m => m ∈ ChessAI.getAllValidMoves b c
          | none => ChessAI.getAllValidMoves b c = [])
    exact getRandomMove_legal c rng b
  | medium =>
    show (match (ChessAI.minimax c b (3 + 1) XInt.negInf XInt.posInf true).move with
          | some m => m ∈ ChessAI.getAllValidMoves b c
          | none => ChessAI.getAllValidMoves b c = [])
    exact minimax_top_move_legal c b 3 XInt.negInf XInt.posInf
  | hard =>
    show (match (ChessAI.minimax c b (5 + 1) XInt.negInf XInt.posInf true).move with
          | some m => m ∈ ChessAI.getAllValidMoves b c
          | none => ChessAI.getAllValidMoves b c = [])
    exact minimax_top_move_legal c b 5 XInt.negInf XInt.posInf

/-- What a successful `stepTarget` yields: the stepped square itself, which is
valid and empty or enemy-occupied. -/
lemma stepTarget_eq_some {b : Board} {sc : Color} {nr nc : Int} {t : Int × Int}
    (h : ChessPiece.stepTarget b sc nr nc = some t) :
    (nr, nc) = t ∧ ChessUtils.isValidSquare nr nc = true ∧
      (boardGet b nr nc = none ∨ ∃ e, boardGet b nr nc = some e ∧ e.color ≠ sc) := by
  unfold ChessPiece.stepTarget at h
  split at h
  · next hv =>
    split at h
    · next hbg =>
      rw [Option.some.injEq] at h
      exact ⟨h, hv, Or.inl hbg⟩
    · next e hbg =>
      split at h
      · next hne =>
        rw [Option.some.injEq] at h
        exact ⟨h, hv, Or.inr ⟨e, hbg, hne⟩⟩
      · exact absurd h (by simp)
  · exact absurd h (by simp)

/-- The converse: membership construction for `stepTarget`. -/
lemma stepTarget_eq_some_of {b : Board} {sc : Color} {nr nc : Int}
    (hv : ChessUtils.isValidSquare nr nc = true)
    (hok : boardGet b nr nc = none ∨ ∃ e, boardGet b nr nc = some e ∧ e.color ≠ sc) :
    ChessPiece.stepTarget b sc nr nc = some (nr, nc) := by
  unfold ChessPiece.stepTarget
  rw [if_pos hv]
  rcases hok with hnone | ⟨e, hbg, hne⟩
  · rw [hnone]
  · rw [hbg]
    dsimp only
    rw [if_pos hne]

/-- A king destination two columns away can only come from the castling
candidates: the king stands on (its back rank, column 4) and the destination
is column 6 or column 2 of that rank. -/
lemma kingMoves_two_col (b : Board) (p : ChessPiece) (t : Int × Int)
    (hm : t ∈ ChessPiece.getKingMoves p b) (h2 : (t.2 - p.col).natAbs = 2) :
    p.col = 4 ∧ t.1 = p.row ∧ (t.2 = 6 ∨ t.2 = 2) := by
  unfold ChessPiece.getKingMoves at hm
  rw [List.mem_append] at hm
  rcases hm with hn | hc
  · exfalso
    rw [List.mem_filterMap] at hn
    obtain ⟨d, hd, heq⟩ := hn
    have ht : t = (p.row + d.1, p.col + d.2) := (stepTarget_eq_some heq).1.symm
    subst ht
    fin_cases hd <;> simp at h2
  · split at hc
    · unfold ChessPiece.getCastlingMoves at hc
      dsimp only at hc
      by_cases hw : p.color = Color.white
      on_goal 1 => simp only [hw, eq_self_iff_true, if_true] at hc
      on_goal 2 => simp only [if_neg hw] at hc
      all_goals (
        split at hc
        · next hpos2 =>
          rw [List.mem_append] at hc
          rcases hc with h6 | hq
          · have ht : t = ((p.row : Int), (6 : Int)) := by
              split at h6
              · split at h6
                · rw [List.mem_singleton] at h6
                  rw [hpos2.1]
                  exact h6
                · simp at h6
              · simp at h6
            subst ht
            exact ⟨hpos2.2, rfl, Or.inl rfl⟩
          · have ht : t = ((p.row : Int), (2 : Int)) := by
              split at hq
              · split at hq
                · rw [List.mem_singleton] at hq
                  rw [hpos2.1]
                  exact hq
                · simp at hq
              · simp at hq
            subst ht
            exact ⟨hpos2.2, rfl, Or.inr rfl⟩
        · next => simp at hc)
    · simp at hc

/-- C1: every move accepted by `isValidMove` leaves the mover's own king out
of check after simulating that move (castling included, via the transit
checks of `isCastlingValid`). -/
theorem c1_accepted_moves_never_leave_own_king_in_check (b : Board) (p : ChessPiece)
    (toRow toCol : Int) (h : MoveValidator.isValidMove p toRow toCol b = true) :
    MoveValidator.isKingInCheck
      (MoveValidator.simulateMove b p.row p.col toRow toCol) p.color = false := by
  unfold MoveValidator.isValidMove at h
  simp only [Bool.and_eq_true] at h
  obtain ⟨⟨⟨hvalid, hfriendly⟩, hmem'⟩, hbranch⟩ := h
  have hmem : (toRow, toCol) ∈ p.getValidMoves b := of_decide_eq_true hmem'
  by_cases hcastle : p.type = PieceType.king ∧ (toCol - p.col).natAbs = 2
  · rw [if_pos hcastle] at hbranch
    have hkm : (toRow, toCol) ∈ ChessPiece.getKingMoves p b := by
      unfold ChessPiece.getValidMoves at hmem
      rw [hcastle.1] at hmem
      exact hmem
    obtain ⟨hcol4, hrow, h62⟩ := kingMoves_two_col b p (toRow, toCol) hkm hcastle.2
    dsimp only at hrow h62
    unfold MoveValidator.isCastlingValid at hbranch
    rw [Bool.and_eq_true] at hbranch
    obtain ⟨hnotcheck, htransit⟩ := hbranch
    rcases h62 with h6 | hq2
    · rw [if_pos h6] at htransit
      rw [Bool.and_eq_true] at htransit
      have h' := htransit.2
      rw [Bool.not_eq_true'] at h'
      rw [hrow, h6]
      exact h'
    · have hne : ¬ toCol = 6 := by rw [hq2]; decide
      rw [if_neg hne, if_pos hq2] at htransit
      rw [Bool.and_eq_true] at htransit
      have h' := htransit.2
      rw [Bool.not_eq_true'] at h'
      rw [hrow, hq2]
      exact h'
  · rw [if_neg hcastle] at hbranch
    rw [Bool.not_eq_true'] at hbranch
    exact hbranch

/-- Witness for C1 on the initial position's pawn move e2-e3. -/
theorem c1_accepted_moves_never_leave_own_king_in_check_witness :
    MoveValidator.isValidMove (PieceFactory.mkPiece PieceType.pawn Color.white 6 4) 5 4
      PieceFactory.createInitialBoard = true ∧
    MoveValidator.isKingInCheck
      (MoveValidator.simulateMove PieceFactory.createInitialBoard
        (PieceFactory.mkPiece PieceType.pawn Color.white 6 4).row
        (PieceFactory.mkPiece PieceType.pawn Color.white 6 4).col 5 4)
      (PieceFactory.mkPiece PieceType.pawn Color.white 6 4).color = false :=
  ⟨by decide,
   c1_accepted_moves_never_leave_own_king_in_check PieceFactory.createInitialBoard
     (PieceFactory.mkPiece PieceType.pawn Color.white 6 4) 5 4 (by decide)⟩

lemma isValidSquare_iff {r c : Int} :
    ChessUtils.isValidSquare r c = true ↔ 0 ≤ r ∧ r < 8 ∧ 0 ≤ c ∧ c < 8 := by
  unfold ChessUtils.isValidSquare
  exact decide_eq_true_iff

lemma boardGet_some_valid {b : Board} {r c : Int} {p : ChessPiece}
    (h : boardGet b r c = some p) : ChessUtils.isValidSquare r c = true := by
  unfold boardGet at h
  split at h
  · assumption
  · exact absurd h (by simp)

lemma boardGet_setPiece_same {b : Board} {r c : Int} {p : Option ChessPiece}
    (h : ChessUtils.isValidSquare r c = true) : boardGet (setPiece b r c p) r c = p := by
  unfold boardGet setPiece
  rw [if_pos h, if_pos ⟨rfl, rfl⟩]

lemma boardGet_setPiece_other {b : Board} {r c : Int} {p : Option ChessPiece}
    {r' c' : Int} (h : ¬ (r' = r ∧ c' = c)) :
    boardGet (setPiece b r c p) r' c' = boardGet b r' c' := by
  unfold boardGet setPiece
  rw [if_neg h]

lemma mem_squaresList {r c : Int} :
    (r, c) ∈ squaresList ↔ 0 ≤ r ∧ r < 8 ∧ 0 ≤ c ∧ c < 8 := by
  unfold squaresList
  rw [List.mem_flatMap]
  constructor
  · rintro ⟨rn, hrn, hm⟩
    rw [List.mem_map] at hm
    obtain ⟨cn, hcn, heq⟩ := hm
    rw [List.mem_range] at hrn hcn
    rw [Prod.mk.injEq] at heq
    obtain ⟨h1, h2⟩ := heq
    rw [Int.ofNat_eq_natCast] at h1 h2
    omega
  · rintro ⟨h1, h2, h3, h4⟩
    refine ⟨r.toNat, ?_, ?_⟩
    · rw [List.mem_range]; omega
    · rw [List.mem_map]
      refine ⟨c.toNat, ?_, ?_⟩
      · rw [List.mem_range]; omega
      · rw [Prod.mk.injEq, Int.ofNat_eq_natCast, Int.ofNat_eq_natCast]
        constructor <;> omega

lemma getOppositeColor_ne (c : Color) : ChessUtils.getOppositeColor c ≠ c := by
  cases c <;> simp [ChessUtils.getOppositeColor]

lemma findSome?_eq_some_unique {α β : Type} {l : List α} {f : α → Option β} {v : β}
    (hall : ∀ a ∈ l, f a = none ∨ f a = some v) (hex : ∃ a ∈ l, f a = some v) :
    l.findSome? f = some v := by
  induction l with
  | nil =>
    obtain ⟨a, ha, _⟩ := hex
    exact absurd ha (List.not_mem_nil a)
  | cons x xs ih =>
    rw [List.findSome?_cons]
    cases hfx : f x with
    | some y =>
      rcases hall x (List.mem_cons_self x xs) with h | h
      · rw [hfx] at h
        exact absurd h (by simp)
      · rw [hfx] at h
        exact h
    | none =>
      apply ih
      · exact fun a ha => hall a (List.mem_cons_of_mem x ha)
      · obtain ⟨a, ha, hfa⟩ := hex
        rcases List.mem_cons.mp ha with rfl | hmem
        · rw [hfx] at hfa
          exact absurd hfa (by simp)
        · exact ⟨a, hmem, hfa⟩

/-- `findKing` returns the unique king of the color, wherever it stands. -/
lemma findKing_eq_some {b : Board} {c : Color} {K : ChessPiece} {r0 c0 : Int}
    (hK : boardGet b r0 c0 = some K) (hKt : K.type = PieceType.king) (hKc : K.color = c)
    (huniq : ∀ r c' p, boardGet b r c' = some p → p.type = PieceType.king → p.color = c →
      p = K) :
    MoveValidator.findKing b c = some K := by
  unfold MoveValidator.findKing
  apply findSome?_eq_some_unique
  · intro rc _
    cases hbg : boardGet b rc.1 rc.2 with
    | none => exact Or.inl (by simp [hbg])
    | some p =>
      by_cases hp : p.type = PieceType.king ∧ p.color = c
      · right
        simp only [hbg, if_pos hp, Option.some.injEq]
        exact huniq rc.1 rc.2 p hbg hp.1 hp.2
      · exact Or.inl (by simp only [hbg, if_neg hp])
  · refine ⟨(r0, c0), ?_, by simp [hK, hKt, hKc]⟩
    have hv := isValidSquare_iff.mp (boardGet_some_valid hK)
    exact mem_squaresList.mpr hv

/-- Build `isKingInCheck = true` from a concrete attacker. -/
lemma isKingInCheck_of_attacker {b : Board} {c : Color} {K : ChessPiece}
    (hfk : MoveValidator.findKing b c = some K) {r0 c0 : Int} {p : ChessPiece}
    (hp : boardGet b r0 c0 = some p) (hpc : p.color = ChessUtils.getOppositeColor c)
    (hmem : (K.row, K.col) ∈ p.getValidMoves b) :
    MoveValidator.isKingInCheck b c = true := by
  unfold MoveValidator.isKingInCheck
  rw [hfk, List.any_eq_true]
  refine ⟨(r0, c0), ?_, ?_⟩
  · exact mem_squaresList.mpr (isValidSquare_iff.mp (boardGet_some_valid hp))
  · simp [hp, hpc, hmem]

/-- Destructure `isKingInCheck = true` into an attacker. -/
lemma attacker_of_isKingInCheck {b : Board} {c : Color} {K : ChessPiece}
    (hfk : MoveValidator.findKing b c = some K)
    (h : MoveValidator.isKingInCheck b c = true) :
    ∃ r0 c0 p, boardGet b r0 c0 = some p ∧ p.color = ChessUtils.getOppositeColor c ∧
      (K.row, K.col) ∈ p.getValidMoves b := by
  unfold MoveValidator.isKingInCheck at h
  rw [hfk, List.any_eq_true] at h
  obtain ⟨rc, _, hx⟩ := h
  cases hbg : boardGet b rc.1 rc.2 with
  | none => rw [hbg] at hx; simp at hx
  | some p =>
    rw [hbg] at hx
    simp only [Bool.and_eq_true, decide_eq_true_eq] at hx
    exact ⟨rc.1, rc.2, p, hbg, hx.1, hx.2⟩

/-- Characterization of the sliding walk: a square is generated exactly when
it is the `n`-th step of the ray, every strictly earlier step is a valid
empty square, and the square itself is valid and empty or enemy-occupied. -/
lemma slideLoop_mem_iff (b : Board) (sc : Color) (row col dr dc : Int) :
    ∀ (fuel i : Nat) (t : Int × Int),
      t ∈ ChessPiece.slideLoop b sc row col dr dc i fuel ↔
        ∃ n : Nat, i ≤ n ∧ n < i + fuel ∧
          t = (row + dr * (n : Int), col + dc * (n : Int)) ∧
          ChessUtils.isValidSquare (row + dr * (n : Int)) (col + dc * (n : Int)) = true ∧
          (∀ j : Nat, i ≤ j → j < n →
            ChessUtils.isValidSquare (row + dr * (j : Int)) (col + dc * (j : Int)) = true ∧
            boardGet b (row + dr * (j : Int)) (col + dc * (j : Int)) = none) ∧
          (boardGet b (row + dr * (n : Int)) (col + dc * (n : Int)) = none ∨
            ∃ e, boardGet b (row + dr * (n : Int)) (col + dc * (n : Int)) = some e ∧
              e.color ≠ sc) := by
  intro fuel
  induction fuel with
  | zero =>
    intro i t
    rw [show ChessPiece.slideLoop b sc row col dr dc i 0 = [] from rfl]
    simp only [List.not_mem_nil, false_iff]
    rintro ⟨n, h1, h2, -⟩
    omega
  | succ fuel ih =>
    intro i t
    rw [ChessPiece.slideLoop]
    by_cases hv : ChessUtils.isValidSquare (row + dr * (i : Int)) (col + dc * (i : Int)) = true
    · rw [if_pos hv]
      cases hbg : boardGet b (row + dr * (i : Int)) (col + dc * (i : Int)) with
      | none =>
        rw [List.mem_cons, ih (i + 1) t]
        constructor
        · rintro (ht | ⟨n, hn1, hn2, ht, hvn, hint, htar⟩)
          · refine ⟨i, Nat.le_refl i, by omega, ht, hv, ?_, Or.inl hbg⟩
            intro j hj1 hj2
            omega
          · refine ⟨n, by omega, by omega, ht, hvn, ?_, htar⟩
            intro j hj1 hj2
            rcases Nat.eq_or_lt_of_le hj1 with rfl | hj3
            · exact ⟨hv, hbg⟩
            · exact hint j (by omega) hj2
        · rintro ⟨n, hn1, hn2, ht, hvn, hint, htar⟩
          rcases Nat.eq_or_lt_of_le hn1 with rfl | hn3
          · exact Or.inl ht
          · refine Or.inr ⟨n, by omega, by omega, ht, hvn, ?_, htar⟩
            intro j hj1 hj2
            exact hint j (by omega) hj2
      | some target =>
        dsimp only
        by_cases hne : target.color ≠ sc
        · rw [if_pos hne, List.mem_singleton]
          constructor
          · intro ht
            refine ⟨i, Nat.le_refl i, by omega, ht, hv, ?_, Or.inr ⟨target, hbg, hne⟩⟩
            intro j hj1 hj2
            omega
          · rintro ⟨n, hn1, hn2, ht, hvn, hint, htar⟩
            rcases Nat.eq_or_lt_of_le hn1 with rfl | hn3
            · exact ht
            · exact absurd (hint i (Nat.le_refl i) hn3).2 (by simp [hbg])
        · rw [if_neg hne]
          simp only [List.not_mem_nil, false_iff]
          rintro ⟨n, hn1, hn2, ht, hvn, hint, htar⟩
          rcases Nat.eq_or_lt_of_le hn1 with rfl | hn3
          · rcases htar with hnone | ⟨e, he, hene⟩
            · rw [hbg] at hnone
              exact absurd hnone (by simp)
            · rw [hbg, Option.some.injEq] at he
              subst he
              exact hne hene
          · exact absurd (hint i (Nat.le_refl i) hn3).2 (by simp [hbg])
    · rw [if_neg hv]
      simp only [List.not_mem_nil, false_iff]
      rintro ⟨n, hn1, hn2, ht, hvn, hint, htar⟩
      rcases Nat.eq_or_lt_of_le hn1 with rfl | hn3
      · exact hv hvn
      · exact hv (hint i (Nat.le_refl i) hn3).1

/-- Shape of castling candidates: only from the home square, to column 6 or 2
of the mover's own back rank. -/
lemma castlingMoves_mem_shape {X : Board} {p : ChessPiece} {t : Int × Int}
    (hc : t ∈ ChessPiece.getCastlingMoves p X) :
    p.row = (if p.color = Color.white then 7 else 0) ∧ p.col = 4 ∧
      t.1 = p.row ∧ (t.2 = 6 ∨ t.2 = 2) := by
  unfold ChessPiece.getCastlingMoves at hc
  dsimp only at hc
  by_cases hw : p.color = Color.white
  on_goal 1 => simp only [hw, eq_self_iff_true, if_true] at hc ⊢
  on_goal 2 => simp only [if_neg hw] at hc ⊢
  all_goals (
    split at hc
    · next hpos2 =>
      rw [List.mem_append] at hc
      rcases hc with h6 | hq
      · have ht : t = ((p.row : Int), (6 : Int)) := by
          split at h6
          · split at h6
            · rw [List.mem_singleton] at h6
              rw [hpos2.1]
              exact h6
            · simp at h6
          · simp at h6
        subst ht
        exact ⟨hpos2.1, hpos2.2, rfl, Or.inl rfl⟩
      · have ht : t = ((p.row : Int), (2 : Int)) := by
          split at hq
          · split at hq
            · rw [List.mem_singleton] at hq
              rw [hpos2.1]
              exact hq
            · simp at hq
          · simp at hq
        subst ht
        exact ⟨hpos2.1, hpos2.2, rfl, Or.inr rfl⟩
    · next => simp at hc)

/-- `stepTarget` reads the board only at the stepped square. -/
lemma stepTarget_congr {X Y : Board} {sc : Color} {nr nc : Int}
    (h : boardGet X nr nc = boardGet Y nr nc) :
    ChessPiece.stepTarget X sc nr nc = ChessPiece.stepTarget Y sc nr nc := by
  unfold ChessPiece.stepTarget
  rw [h]

/-- Membership of a fixed target in a knight/king step list depends on the
board only at the target square. -/
lemma stepList_mem_congr {X Y : Board} {p : ChessPiece} {offs : List (Int × Int)}
    {t : Int × Int} (hagree : boardGet X t.1 t.2 = boardGet Y t.1 t.2) :
    (t ∈ offs.filterMap (fun d => ChessPiece.stepTarget X p.color (p.row + d.1) (p.col + d.2))
      ↔ t ∈ offs.filterMap
        (fun d => ChessPiece.stepTarget Y p.color (p.row + d.1) (p.col + d.2))) := by
  rw [List.mem_filterMap, List.mem_filterMap]
  apply exists_congr
  intro d
  apply and_congr_right
  intro _
  constructor
  · intro hst
    have hsq := (stepTarget_eq_some hst).1
    rw [← hst]
    apply stepTarget_congr
    rw [show p.row + d.1 = t.1 from congrArg Prod.fst hsq,
        show p.col + d.2 = t.2 from congrArg Prod.snd hsq]
    exact hagree.symm
  · intro hst
    have hsq := (stepTarget_eq_some hst).1
    rw [← hst]
    apply stepTarget_congr
    rw [show p.row + d.1 = t.1 from congrArg Prod.fst hsq,
        show p.col + d.2 = t.2 from congrArg Prod.snd hsq]
    exact hagree

/-- Membership of a fixed target in the pawn move list depends on the board
only at squares of the target's column. -/
lemma pawnMoves_mem_imp {X Y : Board} {p : ChessPiece} {t : Int × Int}
    (hagree : ∀ x : Int, boardGet X x t.2 = boardGet Y x t.2)
    (h : t ∈ ChessPiece.getPawnMoves p X) : t ∈ ChessPiece.getPawnMoves p Y := by
  rw [getPawnMoves_mem_iff] at h ⊢
  unfold pawnMovesSpec at h ⊢
  dsimp only at h ⊢
  rcases h with (⟨heq, hv, hrd⟩ | ⟨heq, hsr, hv1, he1, hv2, he2⟩ |
    ⟨off, hoff, heq, hv, e, hbg, hec⟩)
  · left
    have h2 : p.col = t.2 := (congrArg Prod.snd heq).symm
    rw [h2] at hrd hv heq ⊢
    exact ⟨heq, hv, (hagree _).symm.trans hrd⟩
  · right; left
    have h2 : p.col = t.2 := (congrArg Prod.snd heq).symm
    rw [h2] at he1 he2 hv1 hv2 heq ⊢
    exact ⟨heq, hsr, hv1, (hagree _).symm.trans he1, hv2, (hagree _).symm.trans he2⟩
  · right; right
    have h2 : p.col + off = t.2 := (congrArg Prod.snd heq).symm
    rw [h2] at hbg hv heq
    refine ⟨off, hoff, ?_, ?_, e, ?_, hec⟩
    · rw [h2]; exact heq
    · rw [h2]; exact hv
    · rw [h2]; exact (hagree _).symm.trans hbg

lemma pawnMoves_mem_congr {X Y : Board} {p : ChessPiece} {t : Int × Int}
    (hagree : ∀ x : Int, boardGet X x t.2 = boardGet Y x t.2) :
    (t ∈ ChessPiece.getPawnMoves p X ↔ t ∈ ChessPiece.getPawnMoves p Y) :=
  ⟨pawnMoves_mem_imp hagree, pawnMoves_mem_imp (fun x => (hagree x).symm)⟩

section KSFacts

variable {b : Board} {c : Color} {bk : Int} {k R : ChessPiece}

lemma KSSetup.bk_bounds (S : KSSetup b c bk k R) : 0 ≤ bk ∧ bk < 8 := by
  rcases S.hbk with h
  cases c <;> simp_all

lemma KSSetup.valid_bk (S : KSSetup b c bk k R) (y : Int) (hy : 0 ≤ y ∧ y < 8) :
    ChessUtils.isValidSquare bk y = true := by
  have h := S.bk_bounds
  exact isValidSquare_iff.mpr ⟨h.1, h.2, hy.1, hy.2⟩

lemma KSSetup.b1_other (S : KSSetup b c bk k R) {x y : Int}
    (h6 : ¬ (x = bk ∧ y = 6)) (h4 : ¬ (x = bk ∧ y = 4)) :
    boardGet (ksB1 b bk k) x y = boardGet b x y := by
  unfold ksB1
  rw [boardGet_setPiece_other h4, boardGet_setPiece_other h6]

lemma KSSetup.b1_6 (S : KSSetup b c bk k R) :
    boardGet (ksB1 b bk k) bk 6 = some { k with row := bk, col := 6 } := by
  unfold ksB1
  rw [boardGet_setPiece_other (by simp), boardGet_setPiece_same (S.valid_bk 6 (by omega))]

lemma KSSetup.b1_4 (S : KSSetup b c bk k R) : boardGet (ksB1 b bk k) bk 4 = none := by
  unfold ksB1
  rw [boardGet_setPiece_same (S.valid_bk 4 (by omega))]

lemma KSSetup.b1_5 (S : KSSetup b c bk k R) : boardGet (ksB1 b bk k) bk 5 = none := by
  rw [S.b1_other (by simp) (by simp)]
  exact S.h5

lemma KSSetup.b1_7 (S : KSSetup b c bk k R) : boardGet (ksB1 b bk k) bk 7 = some R := by
  rw [S.b1_other (by simp) (by simp)]
  exact S.hR

lemma KSSetup.b2_other (S : KSSetup b c bk k R) {x y : Int}
    (h5 : ¬ (x = bk ∧ y = 5)) (h7 : ¬ (x = bk ∧ y = 7)) :
    boardGet (ksB2 b bk k R) x y = boardGet (ksB1 b bk k) x y := by
  unfold ksB2
  rw [boardGet_setPiece_other h7, boardGet_setPiece_other h5]

lemma KSSetup.b2_5 (S : KSSetup b c bk k R) :
    boardGet (ksB2 b bk k R) bk 5 = some { R with row := bk, col := 5 } := by
  unfold ksB2
  rw [boardGet_setPiece_other (by simp), boardGet_setPiece_same (S.valid_bk 5 (by omega))]

lemma KSSetup.b2_7 (S : KSSetup b c bk k R) : boardGet (ksB2 b bk k R) bk 7 = none := by
  unfold ksB2
  rw [boardGet_setPiece_same (S.valid_bk 7 (by omega))]

lemma KSSetup.b2_6 (S : KSSetup b c bk k R) :
    boardGet (ksB2 b bk k R) bk 6 = some { k with row := bk, col := 6 } := by
  rw [S.b2_other (by simp) (by simp)]
  exact S.b1_6

lemma KSSetup.b2_4 (S : KSSetup b c bk k R) : boardGet (ksB2 b bk k R) bk 4 = none := by
  rw [S.b2_other (by simp) (by simp)]
  exact S.b1_4

/-- The one-column king simulation agrees with the claim's king-alone board. -/
lemma simulateMove_kingAlone {b : Board} {bk : Int} {k : ChessPiece} (tc : Int)
    (hk : boardGet b bk 4 = some k) (h2 : (tc - 4).natAbs ≠ 2) :
    MoveValidator.simulateMove b bk 4 bk tc = kingAloneSim b bk tc := by
  unfold MoveValidator.simulateMove kingAloneSim
  rw [hk]
  dsimp only
  rw [if_neg (fun hand => h2 hand.2)]

/-- The code's full kingside castling simulation is `ksB2`. -/
lemma KSSetup.sim_eq_b2 (S : KSSetup b c bk k R) :
    MoveValidator.simulateMove b bk 4 bk 6 = ksB2 b bk k R := by
  unfold MoveValidator.simulateMove
  rw [S.hk]
  dsimp only
  rw [if_pos ⟨S.hkt, by decide⟩]
  rw [if_pos rfl, if_pos rfl]
  have hb1 : setPiece (setPiece b bk 6 (some { k with row := bk, col := 6 })) bk 4 none
      = ksB1 b bk k := rfl
  rw [hb1, S.b1_7]
  rfl

/-- The claim's king-alone destination board is `ksB1`. -/
lemma KSSetup.alone_eq_b1 (S : KSSetup b c bk k R) :
    kingAloneSim b bk 6 = ksB1 b bk k := by
  unfold kingAloneSim
  rw [S.hk]
  rfl

end KSFacts

section KSFind

variable {b : Board} {c : Color} {bk : Int} {k R : ChessPiece}

lemma KSSetup.findKing_b (S : KSSetup b c bk k R) :
    MoveValidator.findKing b c = some k := by
  apply findKing_eq_some S.hk S.hkt S.hkc
  intro r c' p hp hpt hpc
  obtain ⟨hr, hc'⟩ := S.huniq r c' p hp hpt hpc
  subst hr
  subst hc'
  rw [S.hk] at hp
  exact (Option.some.inj hp).symm

lemma KSSetup.findKing_b1 (S : KSSetup b c bk k R) :
    MoveValidator.findKing (ksB1 b bk k) c = some { k with row := bk, col := 6 } := by
  apply findKing_eq_some S.b1_6 S.hkt S.hkc
  intro r c' p hp hpt hpc
  by_cases h46 : r = bk ∧ c' = 6
  · obtain ⟨rfl, rfl⟩ := h46
    rw [S.b1_6] at hp
    exact (Option.some.inj hp).symm
  · by_cases h44 : r = bk ∧ c' = 4
    · obtain ⟨rfl, rfl⟩ := h44
      rw [S.b1_4] at hp
      exact absurd hp (by simp)
    · rw [S.b1_other h46 h44] at hp
      exact absurd (S.huniq r c' p hp hpt hpc) h44

lemma KSSetup.findKing_b2 (S : KSSetup b c bk k R) :
    MoveValidator.findKing (ksB2 b bk k R) c = some { k with row := bk, col := 6 } := by
  apply findKing_eq_some S.b2_6 S.hkt S.hkc
  intro r c' p hp hpt hpc
  by_cases h45 : r = bk ∧ c' = 5
  · obtain ⟨rfl, rfl⟩ := h45
    rw [S.b2_5] at hp
    have : R.type = PieceType.king := by
      have hpR := (Option.some.inj hp).symm
      rw [← hpt, hpR]
    rw [S.hRt] at this
    exact absurd this (by simp)
  · by_cases h47 : r = bk ∧ c' = 7
    · obtain ⟨rfl, rfl⟩ := h47
      rw [S.b2_7] at hp
      exact absurd hp (by simp)
    · rw [S.b2_other h45 h47] at hp
      by_cases h46 : r = bk ∧ c' = 6
      · obtain ⟨rfl, rfl⟩ := h46
        rw [S.b1_6] at hp
        exact (Option.some.inj hp).symm
      · by_cases h44 : r = bk ∧ c' = 4
        · obtain ⟨rfl, rfl⟩ := h44
          rw [S.b1_4] at hp
          exact absurd hp (by simp)
        · rw [S.b1_other h46 h44] at hp
          exact absurd (S.huniq r c' p hp hpt hpc) h44

end KSFind

lemma rayDirs_cases {d : Int × Int} (hd : d ∈ rayDirs) :
    (d.1 = 0 ∧ d.2 = 1) ∨ (d.1 = 0 ∧ d.2 = -1) ∨ (d.1 = 1 ∧ d.2 = 0) ∨
    (d.1 = -1 ∧ d.2 = 0) ∨ (d.1 = 1 ∧ d.2 = 1) ∨ (d.1 = 1 ∧ d.2 = -1) ∨
    (d.1 = -1 ∧ d.2 = 1) ∨ (d.1 = -1 ∧ d.2 = -1) := by
  unfold rayDirs at hd
  fin_cases hd <;> simp

/-- A ray that reaches the king's destination column 6 never crosses the rook
home column 7 strictly earlier. -/
lemma ks_ray_no7 {d : Int × Int} (hd : d ∈ rayDirs) {r0 c0 bk : Int} {n j : Nat}
    (hj1 : 1 ≤ j) (hjn : j < n) (hc0 : 0 ≤ c0 ∧ c0 < 8)
    (e1 : r0 + d.1 * (j : Int) = bk) (e2 : c0 + d.2 * (j : Int) = 7)
    (e3 : r0 + d.1 * (n : Int) = bk) (e4 : c0 + d.2 * (n : Int) = 6) : False := by
  rcases rayDirs_cases hd with ⟨h1, h2⟩ | ⟨h1, h2⟩ | ⟨h1, h2⟩ | ⟨h1, h2⟩ |
    ⟨h1, h2⟩ | ⟨h1, h2⟩ | ⟨h1, h2⟩ | ⟨h1, h2⟩ <;> simp only [h1, h2] at e1 e2 e3 e4 <;> omega

/-- If a ray reaches column 6 of the back rank after crossing column 5 of the
back rank, it is the eastward ray: the attacker stands on the back rank west
of column 5 and the crossing is the step just before the destination. -/
lemma ks_ray_through5 {d : Int × Int} (hd : d ∈ rayDirs) {r0 c0 bk : Int} {n j : Nat}
    (hj1 : 1 ≤ j) (hjn : j < n)
    (e1 : r0 + d.1 * (j : Int) = bk) (e2 : c0 + d.2 * (j : Int) = 5)
    (e3 : r0 + d.1 * (n : Int) = bk) (e4 : c0 + d.2 * (n : Int) = 6) :
    d.1 = 0 ∧ d.2 = 1 ∧ r0 = bk ∧ (n : Int) = (j : Int) + 1 ∧ c0 = 5 - (j : Int) := by
  rcases rayDirs_cases hd with ⟨h1, h2⟩ | ⟨h1, h2⟩ | ⟨h1, h2⟩ | ⟨h1, h2⟩ |
    ⟨h1, h2⟩ | ⟨h1, h2⟩ | ⟨h1, h2⟩ | ⟨h1, h2⟩ <;> simp only [h1, h2] at e1 e2 e3 e4 <;>
    refine ⟨?_, ?_, ?_, ?_, ?_⟩ <;> omega

/-- Attack transfer along one ray (kingside): whenever the ray does not give
check on the original board, membership of the castling destination in an
enemy slider's ray is the same on the full castling board and on the
king-alone board. -/
lemma KSSetup.slide_transfer {b : Board} {c : Color} {bk : Int} {k R : ChessPiece}
    (S : KSSetup b c bk k R) {p : ChessPiece} {r0 c0 : Int}
    (hp_b : boardGet b r0 c0 = some p) (hpe : p.color = ChessUtils.getOppositeColor c)
    {d : Int × Int} (hd : d ∈ rayDirs)
    (hsafe : ((bk : Int), (4 : Int)) ∉ ChessPiece.slideLoop b p.color r0 c0 d.1 d.2 1 7) :
    (((bk : Int), (6 : Int)) ∈
        ChessPiece.slideLoop (ksB2 b bk k R) p.color r0 c0 d.1 d.2 1 7 ↔
      ((bk : Int), (6 : Int)) ∈
        ChessPiece.slideLoop (ksB1 b bk k) p.color r0 c0 d.1 d.2 1 7) := by
  obtain ⟨hr0a, hr0b, hc0a, hc0b⟩ := isValidSquare_iff.mp (boardGet_some_valid hp_b)
  have hcc : c ≠ ChessUtils.getOppositeColor c := Ne.symm (getOppositeColor_ne c)
  have hne4 : ¬ (r0 = bk ∧ c0 = 4) := by
    rintro ⟨rfl, rfl⟩
    rw [S.hk] at hp_b
    have hkp := Option.some.inj hp_b
    rw [← hkp] at hpe
    rw [S.hkc] at hpe
    exact hcc hpe
  rw [slideLoop_mem_iff, slideLoop_mem_iff]
  constructor
  · rintro ⟨n, hn1, hn8, ht, hv, hint, htar⟩
    rw [Prod.mk.injEq] at ht
    obtain ⟨e3, e4⟩ := ht
    refine ⟨n, hn1, hn8, by rw [Prod.mk.injEq]; exact ⟨e3, e4⟩, hv, ?_, ?_⟩
    · intro j hj1 hjn
      obtain ⟨hvj, hbj⟩ := hint j hj1 hjn
      have hne5j : ¬ (r0 + d.1 * (j : Int) = bk ∧ c0 + d.2 * (j : Int) = 5) := by
        rintro ⟨f1, f2⟩
        rw [f1, f2, S.b2_5] at hbj
        exact absurd hbj (by simp)
      have hne7j : ¬ (r0 + d.1 * (j : Int) = bk ∧ c0 + d.2 * (j : Int) = 7) := by
        rintro ⟨f1, f2⟩
        exact ks_ray_no7 hd hj1 hjn ⟨hc0a, hc0b⟩ f1 f2 e3.symm e4.symm
      refine ⟨hvj, ?_⟩
      rw [← S.b2_other hne5j hne7j]
      exact hbj
    · right
      refine ⟨{ k with row := bk, col := 6 }, ?_, ?_⟩
      · rw [← e3, ← e4]
        exact S.b1_6
      · show k.color ≠ p.color
        rw [S.hkc, hpe]
        exact hcc
  · rintro ⟨n, hn1, hn8, ht, hv, hint, htar⟩
    rw [Prod.mk.injEq] at ht
    obtain ⟨e3, e4⟩ := ht
    by_cases hex5 : ∃ j : Nat, 1 ≤ j ∧ j < n ∧
        r0 + d.1 * (j : Int) = bk ∧ c0 + d.2 * (j : Int) = 5
    · exfalso
      obtain ⟨j0, hj01, hj0n, f1, f2⟩ := hex5
      obtain ⟨hd1, hd2, hr0bk, hnj, hc0⟩ :=
        ks_ray_through5 hd hj01 hj0n f1 f2 e3.symm e4.symm
      have hc0ne4 : c0 ≠ 4 := fun h => hne4 ⟨hr0bk, h⟩
      have hc03 : c0 ≤ 3 := by omega
      apply hsafe
      rw [slideLoop_mem_iff]
      have g1 : ∀ m : Nat, r0 + d.1 * (m : Int) = bk := by
        intro m
        rw [hd1]
        omega
      refine ⟨(4 - c0).toNat, by omega, by omega, ?_, ?_, ?_, ?_⟩
      · rw [Prod.mk.injEq]
        refine ⟨(g1 _).symm, ?_⟩
        rw [hd2]
        omega
      · rw [g1, show c0 + d.2 * (((4 - c0).toNat : Nat) : Int) = 4 by rw [hd2]; omega]
        exact S.valid_bk 4 (by omega)
      · intro j hj1 hjn'
        have hjn2 : j < n := by omega
        obtain ⟨hvj, hbj⟩ := hint j hj1 hjn2
        have hne6j : ¬ (r0 + d.1 * (j : Int) = bk ∧ c0 + d.2 * (j : Int) = 6) := by
          rintro ⟨-, hcol⟩
          rw [hd2] at hcol
          omega
        have hne4j : ¬ (r0 + d.1 * (j : Int) = bk ∧ c0 + d.2 * (j : Int) = 4) := by
          rintro ⟨-, hcol⟩
          rw [hd2] at hcol
          omega
        refine ⟨hvj, ?_⟩
        rw [← S.b1_other hne6j hne4j]
        exact hbj
      · right
        refine ⟨k, ?_, ?_⟩
        · rw [g1, show c0 + d.2 * (((4 - c0).toNat : Nat) : Int) = 4 by rw [hd2]; omega]
          exact S.hk
        · show k.color ≠ p.color
          rw [S.hkc, hpe]
          exact hcc
    · refine ⟨n, hn1, hn8, by rw [Prod.mk.injEq]; exact ⟨e3, e4⟩, hv, ?_, ?_⟩
      · intro j hj1 hjn
        obtain ⟨hvj, hbj⟩ := hint j hj1 hjn
        have hne7j : ¬ (r0 + d.1 * (j : Int) = bk ∧ c0 + d.2 * (j : Int) = 7) := by
          rintro ⟨f1, f2⟩
          rw [f1, f2, S.b1_7] at hbj
          exact absurd hbj (by simp)
        have hne5j : ¬ (r0 + d.1 * (j : Int) = bk ∧ c0 + d.2 * (j : Int) = 5) := by
          rintro ⟨f1, f2⟩
          exact hex5 ⟨j, hj1, hjn, f1, f2⟩
        refine ⟨hvj, ?_⟩
        rw [S.b2_other hne5j hne7j]
        exact hbj
      · right
        refine ⟨{ k with row := bk, col := 6 }, ?_, ?_⟩
        · rw [← e3, ← e4]
          exact S.b2_6
        · show k.color ≠ p.color
          rw [S.hkc, hpe]
          exact hcc

/-- An enemy piece's castling candidates never target the castler's back
rank: the enemy's home rank is the opposite one. -/
lemma enemy_castle_target_ne {X : Board} {c : Color} {bk : Int} {p : ChessPiece}
    (hbk : bk = (if c = Color.white then 7 else 0))
    (hpe : p.color = ChessUtils.getOppositeColor c) {t2 : Int}
    (hmem : ((bk : Int), t2) ∈ ChessPiece.getCastlingMoves p X) : False := by
  obtain ⟨hprow, -, ht1, -⟩ := castlingMoves_mem_shape hmem
  dsimp only at ht1
  rw [hpe] at hprow
  cases c <;> simp only [ChessUtils.getOppositeColor] at hprow hbk <;>
    simp at hprow hbk <;> omega

/-- An enemy piece attacks the kingside castling destination on the full
castling board exactly when it does on the king-alone board. -/
lemma KSSetup.moves_transfer {b : Board} {c : Color} {bk : Int} {k R : ChessPiece}
    (S : KSSetup b c bk k R) {p : ChessPiece}
    (hp_b : boardGet b p.row p.col = some p)
    (hpe : p.color = ChessUtils.getOppositeColor c) :
    (((bk : Int), (6 : Int)) ∈ p.getValidMoves (ksB2 b bk k R) ↔
      ((bk : Int), (6 : Int)) ∈ p.getValidMoves (ksB1 b bk k)) := by
  have hcol6 : ∀ x : Int, boardGet (ksB2 b bk k R) x 6 = boardGet (ksB1 b bk k) x 6 :=
    fun x => S.b2_other (by rintro ⟨-, h⟩; exact absurd h (by decide))
      (by rintro ⟨-, h⟩; exact absurd h (by decide))
  have hsafe : ∀ d : Int × Int,
      (∀ t, t ∈ ChessPiece.slideLoop b p.color p.row p.col d.1 d.2 1 7 →
        t ∈ p.getValidMoves b) →
      ((bk : Int), (4 : Int)) ∉ ChessPiece.slideLoop b p.color p.row p.col d.1 d.2 1 7 := by
    intro d hvm hmem
    have hk4 := S.hcons bk 4 k S.hk
    have hatt : (k.row, k.col) ∈ p.getValidMoves b := by
      rw [hk4.1, hk4.2]
      exact hvm _ hmem
    have hchk := isKingInCheck_of_attacker S.findKing_b hp_b hpe hatt
    rw [S.hnc] at hchk
    exact Bool.noConfusion hchk
  cases htp : p.type
  case pawn =>
    simp only [ChessPiece.getValidMoves, htp]
    exact pawnMoves_mem_congr (fun x => hcol6 x)
  case rook =>
    simp only [ChessPiece.getValidMoves, htp]
    unfold ChessPiece.getRookMoves
    rw [List.mem_flatMap, List.mem_flatMap]
    apply exists_congr
    intro d
    apply and_congr_right
    intro hd
    refine S.slide_transfer hp_b hpe ?_ (hsafe d ?_)
    · fin_cases hd <;> decide
    · intro t ht
      simp only [ChessPiece.getValidMoves, htp]
      unfold ChessPiece.getRookMoves
      rw [List.mem_flatMap]
      exact ⟨d, hd, ht⟩
  case knight =>
    simp only [ChessPiece.getValidMoves, htp]
    unfold ChessPiece.getKnightMoves
    exact stepList_mem_congr (hcol6 bk)
  case bishop =>
    simp only [ChessPiece.getValidMoves, htp]
    unfold ChessPiece.getBishopMoves
    rw [List.mem_flatMap, List.mem_flatMap]
    apply exists_congr
    intro d
    apply and_congr_right
    intro hd
    refine S.slide_transfer hp_b hpe ?_ (hsafe d ?_)
    · fin_cases hd <;> decide
    · intro t ht
      simp only [ChessPiece.getValidMoves, htp]
      unfold ChessPiece.getBishopMoves
      rw [List.mem_flatMap]
      exact ⟨d, hd, ht⟩
  case queen =>
    simp only [ChessPiece.getValidMoves, htp]
    unfold ChessPiece.getQueenMoves
    rw [List.mem_append, List.mem_append]
    apply or_congr
    · unfold ChessPiece.getRookMoves
      rw [List.mem_flatMap, List.mem_flatMap]
      apply exists_congr
      intro d
      apply and_congr_right
      intro hd
      refine S.slide_transfer hp_b hpe ?_ (hsafe d ?_)
      · fin_cases hd <;> decide
      · intro t ht
        simp only [ChessPiece.getValidMoves, htp]
        unfold ChessPiece.getQueenMoves
        rw [List.mem_append]
        left
        unfold ChessPiece.getRookMoves
        rw [List.mem_flatMap]
        exact ⟨d, hd, ht⟩
    · unfold ChessPiece.getBishopMoves
      rw [List.mem_flatMap, List.mem_flatMap]
      apply exists_congr
      intro d
      apply and_congr_right
      intro hd
      refine S.slide_transfer hp_b hpe ?_ (hsafe d ?_)
      · fin_cases hd <;> decide
      · intro t ht
        simp only [ChessPiece.getValidMoves, htp]
        unfold ChessPiece.getQueenMoves
        rw [List.mem_append]
        right
        unfold ChessPiece.getBishopMoves
        rw [List.mem_flatMap]
        exact ⟨d, hd, ht⟩
  case king =>
    simp only [ChessPiece.getValidMoves, htp]
    unfold ChessPiece.getKingMoves
    rw [List.mem_append, List.mem_append]
    apply or_congr
    · exact stepList_mem_congr (hcol6 bk)
    · constructor
      · intro hmem
        exfalso
        split at hmem
        · exact enemy_castle_target_ne S.hbk hpe hmem
        · simp at hmem
      · intro hmem
        exfalso
        split at hmem
        · exact enemy_castle_target_ne S.hbk hpe hmem
        · simp at hmem

/-- Check on the full kingside-castling board coincides with check on the
king-alone board (given no check on the original board). -/
lemma KSSetup.check_transfer {b : Board} {c : Color} {bk : Int} {k R : ChessPiece}
    (S : KSSetup b c bk k R) :
    MoveValidator.isKingInCheck (ksB2 b bk k R) c =
      MoveValidator.isKingInCheck (ksB1 b bk k) c := by
  have h : MoveValidator.isKingInCheck (ksB2 b bk k R) c = true ↔
      MoveValidator.isKingInCheck (ksB1 b bk k) c = true := by
    constructor
    · intro h2
      obtain ⟨r0, c0, p, hp, hpc, hmem⟩ := attacker_of_isKingInCheck S.findKing_b2 h2
      have h57 : ¬ (r0 = bk ∧ c0 = 5) := by
        rintro ⟨rfl, rfl⟩
        rw [S.b2_5] at hp
        have hRp := Option.some.inj hp
        have hcR : R.color = ChessUtils.getOppositeColor c := by
          rw [← hRp] at hpc
          exact hpc
        rw [S.hRc] at hcR
        exact getOppositeColor_ne c hcR.symm
      have h77 : ¬ (r0 = bk ∧ c0 = 7) := by
        rintro ⟨rfl, rfl⟩
        rw [S.b2_7] at hp
        exact Option.noConfusion hp
      have hp1 : boardGet (ksB1 b bk k) r0 c0 = some p := by
        rw [← S.b2_other h57 h77]
        exact hp
      have h66 : ¬ (r0 = bk ∧ c0 = 6) := by
        rintro ⟨rfl, rfl⟩
        rw [S.b1_6] at hp1
        have hkp := Option.some.inj hp1
        have hck : k.color = ChessUtils.getOppositeColor c := by
          rw [← hkp] at hpc
          exact hpc
        rw [S.hkc] at hck
        exact getOppositeColor_ne c hck.symm
      have h44 : ¬ (r0 = bk ∧ c0 = 4) := by
        rintro ⟨rfl, rfl⟩
        rw [S.b1_4] at hp1
        exact Option.noConfusion hp1
      have hpb : boardGet b r0 c0 = some p := by
        rw [← S.b1_other h66 h44]
        exact hp1
      obtain ⟨hrow, hcol⟩ := S.hcons r0 c0 p hpb
      subst hrow
      subst hcol
      have hmem' : ((bk : Int), (6 : Int)) ∈ p.getValidMoves (ksB2 b bk k R) := hmem
      rw [S.moves_transfer hpb hpc] at hmem'
      exact isKingInCheck_of_attacker S.findKing_b1 hp1 hpc hmem'
    · intro h1
      obtain ⟨r0, c0, p, hp, hpc, hmem⟩ := attacker_of_isKingInCheck S.findKing_b1 h1
      have h66 : ¬ (r0 = bk ∧ c0 = 6) := by
        rintro ⟨rfl, rfl⟩
        rw [S.b1_6] at hp
        have hkp := Option.some.inj hp
        have hck : k.color = ChessUtils.getOppositeColor c := by
          rw [← hkp] at hpc
          exact hpc
        rw [S.hkc] at hck
        exact getOppositeColor_ne c hck.symm
      have h44 : ¬ (r0 = bk ∧ c0 = 4) := by
        rintro ⟨rfl, rfl⟩
        rw [S.b1_4] at hp
        exact Option.noConfusion hp
      have hpb : boardGet b r0 c0 = some p := by
        rw [← S.b1_other h66 h44]
        exact hp
      have h57 : ¬ (r0 = bk ∧ c0 = 5) := by
        rintro ⟨rfl, rfl⟩
        rw [S.h5] at hpb
        exact Option.noConfusion hpb
      have h77 : ¬ (r0 = bk ∧ c0 = 7) := by
        rintro ⟨rfl, rfl⟩
        rw [S.hR] at hpb
        have hRp := Option.some.inj hpb
        have hcR : R.color = ChessUtils.getOppositeColor c := by
          rw [← hRp] at hpc
          exact hpc
        rw [S.hRc] at hcR
        exact getOppositeColor_ne c hcR.symm
      have hp2 : boardGet (ksB2 b bk k R) r0 c0 = some p := by
        rw [S.b2_other h57 h77]
        exact hp
      obtain ⟨hrow, hcol⟩ := S.hcons r0 c0 p hpb
      subst hrow
      subst hcol
      have hmem' : ((bk : Int), (6 : Int)) ∈ p.getValidMoves (ksB1 b bk k) := hmem
      rw [← S.moves_transfer hpb hpc] at hmem'
      exact isKingInCheck_of_attacker S.findKing_b2 hp2 hpc hmem'
  cases h2 : MoveValidator.isKingInCheck (ksB2 b bk k R) c <;>
    cases h1 : MoveValidator.isKingInCheck (ksB1 b bk k) c
  · rfl
  · rw [h2] at h
    exact absurd (h.mpr h1) (by simp)
  · rw [h1] at h
    exact absurd (h.mp h2) (by simp)
  · rfl

/-- Kingside half of C2: under a consistent board with a unique king of the
color on its home square, `isValidMove` accepts the two-square kingside king
move exactly when the spec's castling conditions hold. -/
lemma ks_castling_iff (b : Board) (c : Color) (k : ChessPiece)
    (hcons : Consistent b)
    (hk : boardGet b (if c = Color.white then 7 else 0) 4 = some k)
    (hkt : k.type = PieceType.king) (hkc : k.color = c)
    (huniq : ∀ r c' p, boardGet b r c' = some p → p.type = PieceType.king → p.color = c →
      r = (if c = Color.white then 7 else 0) ∧ c' = 4) :
    (MoveValidator.isValidMove k (if c = Color.white then 7 else 0) 6 b = true ↔
      castlingSpec b c ChessGame.CastleSide.kingside) := by
  set bk : Int := (if c = Color.white then 7 else 0) with hbkdef
  obtain ⟨hkr, hkc4⟩ := hcons bk 4 k hk
  have hbkb : 0 ≤ bk ∧ bk < 8 := by
    rw [hbkdef]
    cases c <;> simp
  constructor
  · intro h
    unfold MoveValidator.isValidMove at h
    simp only [Bool.and_eq_true] at h
    obtain ⟨⟨⟨hvalid, hfriendly⟩, hmem'⟩, hbranch⟩ := h
    have hmem : ((bk : Int), (6 : Int)) ∈ k.getValidMoves b := of_decide_eq_true hmem'
    have hkm : ((bk : Int), (6 : Int)) ∈ ChessPiece.getKingMoves k b := by
      unfold ChessPiece.getValidMoves at hmem
      rw [hkt] at hmem
      exact hmem
    unfold ChessPiece.getKingMoves at hkm
    rw [List.mem_append] at hkm
    rcases hkm with hn | hcst
    · exfalso
      rw [List.mem_filterMap] at hn
      obtain ⟨d, hd, heq⟩ := hn
      have ht := (stepTarget_eq_some heq).1
      have hc6 : k.col + d.2 = 6 := congrArg Prod.snd ht
      rw [hkc4] at hc6
      fin_cases hd <;> simp at hc6
    · have hknm : k.hasMoved = false := by
        by_cases hmv : k.hasMoved = false
        · exact hmv
        · rw [if_neg hmv] at hcst
          exact absurd hcst (by simp)
      rw [if_pos hknm] at hcst
      unfold ChessPiece.getCastlingMoves at hcst
      dsimp only at hcst
      rw [hkc, ← hbkdef] at hcst
      rw [if_pos ⟨hkr, hkc4⟩] at hcst
      rw [List.mem_append] at hcst
      have hcst' : ((bk : Int), (6 : Int)) ∈
          (match boardGet b bk 7 with
           | some kingsideRook =>
             if kingsideRook.type = PieceType.rook ∧ kingsideRook.color = c ∧
                 kingsideRook.hasMoved = false ∧
                 boardGet b bk 5 = none ∧ boardGet b bk 6 = none then
               [(bk, (6 : Int))]
             else []
           | none => []) := by
        rcases hcst with h1 | h2
        · exact h1
        · exfalso
          cases hq : boardGet b bk 0 with
          | none => rw [hq] at h2; simp at h2
          | some q =>
            rw [hq] at h2
            dsimp only at h2
            split at h2
            · rw [List.mem_singleton, Prod.mk.injEq] at h2
              exact absurd h2.2 (by decide)
            · simp at h2
      cases hr : boardGet b bk 7 with
      | none => rw [hr] at hcst'; exact absurd hcst' (by simp)
      | some R =>
        rw [hr] at hcst'
        dsimp only at hcst'
        split at hcst'
        case isFalse => exact absurd hcst' (by simp)
        case isTrue hguard =>
        obtain ⟨hRt, hRc, hRm, h5, h6⟩ := hguard
        rw [if_pos ⟨hkt, by rw [hkc4]; decide⟩] at hbranch
        unfold MoveValidator.isCastlingValid at hbranch
        rw [hkc, hkr, hkc4] at hbranch
        rw [if_pos rfl] at hbranch
        simp only [Bool.and_eq_true, Bool.not_eq_true'] at hbranch
        obtain ⟨hnc, htr5, htr6⟩ := hbranch
        have S : KSSetup b c bk k R :=
          ⟨hbkdef, hcons, hk, hkt, hkc, huniq, hr, hRt, hRc, h5, h6, hnc⟩
        simp only [castlingSpec, reduceIte]
        rw [← hbkdef]
        refine ⟨⟨k, hk, hkt, hkc, hknm⟩, ⟨R, hr, hRt, hRc, hRm⟩, ?_, hnc, ?_⟩
        · intro cc hcc
          fin_cases hcc
          · exact h5
          · exact h6
        · intro cc hcc
          fin_cases hcc
          · rw [← simulateMove_kingAlone 5 hk (by decide)]
            exact htr5
          · rw [S.alone_eq_b1, ← S.check_transfer, ← S.sim_eq_b2]
            exact htr6
  · intro hspec
    simp only [castlingSpec, reduceIte] at hspec
    rw [← hbkdef] at hspec
    obtain ⟨⟨k', hk', hk't, hk'c, hk'm⟩, ⟨R, hr, hRt, hRc, hRm⟩, hbet, hnc, htr⟩ := hspec
    have hkk' : k' = k := by
      rw [hk] at hk'
      exact (Option.some.inj hk').symm
    subst hkk'
    have h5 : boardGet b bk 5 = none := hbet 5 (by simp)
    have h6 : boardGet b bk 6 = none := hbet 6 (by simp)
    have S : KSSetup b c bk k' R :=
      ⟨hbkdef, hcons, hk, hk't, hk'c, huniq, hr, hRt, hRc, h5, h6, hnc⟩
    unfold MoveValidator.isValidMove
    simp only [Bool.and_eq_true]
    refine ⟨⟨⟨?_, ?_⟩, ?_⟩, ?_⟩
    · exact isValidSquare_iff.mpr ⟨hbkb.1, hbkb.2, by decide, by decide⟩
    · rw [h6]
      rfl
    · rw [decide_eq_true_iff]
      unfold ChessPiece.getValidMoves
      rw [hk't]
      unfold ChessPiece.getKingMoves
      rw [List.mem_append]
      right
      rw [if_pos hk'm]
      unfold ChessPiece.getCastlingMoves
      dsimp only
      rw [hk'c, ← hbkdef]
      rw [if_pos ⟨hkr, hkc4⟩]
      rw [List.mem_append]
      left
      rw [hr]
      dsimp only
      rw [if_pos ⟨hRt, hRc, hRm, h5, h6⟩]
      exact List.mem_singleton.mpr rfl
    · rw [if_pos ⟨hk't, by rw [hkc4]; decide⟩]
      unfold MoveValidator.isCastlingValid
      rw [hk'c, hkr, hkc4]
      rw [if_pos rfl]
      simp only [Bool.and_eq_true, Bool.not_eq_true']
      refine ⟨hnc, ?_, ?_⟩
      · rw [simulateMove_kingAlone 5 hk (by decide)]
        exact htr 5 (by simp)
      · rw [S.sim_eq_b2, S.check_transfer, ← S.alone_eq_b1]
        exact htr 6 (by simp)

section QSFacts

variable {b : Board} {c : Color} {bk : Int} {k R : ChessPiece}

lemma QSSetup.qs_bk_bounds (S : QSSetup b c bk k R) : 0 ≤ bk ∧ bk < 8 := by
  rcases S.hbk with h
  cases c <;> simp_all

lemma QSSetup.qs_valid_bk (S : QSSetup b c bk k R) (y : Int) (hy : 0 ≤ y ∧ y < 8) :
    ChessUtils.isValidSquare bk y = true := by
  have h := S.qs_bk_bounds
  exact isValidSquare_iff.mpr ⟨h.1, h.2, hy.1, hy.2⟩

lemma QSSetup.qs_b1_other (S : QSSetup b c bk k R) {x y : Int}
    (h2 : ¬ (x = bk ∧ y = 2)) (h4 : ¬ (x = bk ∧ y = 4)) :
    boardGet (qsB1 b bk k) x y = boardGet b x y := by
  unfold qsB1
  rw [boardGet_setPiece_other h4, boardGet_setPiece_other h2]

lemma QSSetup.qs_b1_2 (S : QSSetup b c bk k R) :
    boardGet (qsB1 b bk k) bk 2 = some { k with row := bk, col := 2 } := by
  unfold qsB1
  rw [boardGet_setPiece_other (by simp), boardGet_setPiece_same (S.qs_valid_bk 2 (by omega))]

lemma QSSetup.qs_b1_4 (S : QSSetup b c bk k R) : boardGet (qsB1 b bk k) bk 4 = none := by
  unfold qsB1
  rw [boardGet_setPiece_same (S.qs_valid_bk 4 (by omega))]

lemma QSSetup.qs_b1_3 (S : QSSetup b c bk k R) : boardGet (qsB1 b bk k) bk 3 = none := by
  rw [S.qs_b1_other (by simp) (by simp)]
  exact S.he3

lemma QSSetup.qs_b1_0 (S : QSSetup b c bk k R) : boardGet (qsB1 b bk k) bk 0 = some R := by
  rw [S.qs_b1_other (by simp) (by simp)]
  exact S.hR

lemma QSSetup.qs_b2_other (S : QSSetup b c bk k R) {x y : Int}
    (h3 : ¬ (x = bk ∧ y = 3)) (h0 : ¬ (x = bk ∧ y = 0)) :
    boardGet (qsB2 b bk k R) x y = boardGet (qsB1 b bk k) x y := by
  unfold qsB2
  rw [boardGet_setPiece_other h0, boardGet_setPiece_other h3]

lemma QSSetup.qs_b2_3 (S : QSSetup b c bk k R) :
    boardGet (qsB2 b bk k R) bk 3 = some { R with row := bk, col := 3 } := by
  unfold qsB2
  rw [boardGet_setPiece_other (by simp), boardGet_setPiece_same (S.qs_valid_bk 3 (by omega))]

lemma QSSetup.qs_b2_0 (S : QSSetup b c bk k R) : boardGet (qsB2 b bk k R) bk 0 = none := by
  unfold qsB2
  rw [boardGet_setPiece_same (S.qs_valid_bk 0 (by omega))]

lemma QSSetup.qs_b2_2 (S : QSSetup b c bk k R) :
    boardGet (qsB2 b bk k R) bk 2 = some { k with row := bk, col := 2 } := by
  rw [S.qs_b2_other (by simp) (by simp)]
  exact S.qs_b1_2

lemma QSSetup.qs_b2_4 (S : QSSetup b c bk k R) : boardGet (qsB2 b bk k R) bk 4 = none := by
  rw [S.qs_b2_other (by simp) (by simp)]
  exact S.qs_b1_4

/-- The code's full queenside castling simulation is `qsB2`. -/
lemma QSSetup.qs_sim_eq_b2 (S : QSSetup b c bk k R) :
    MoveValidator.simulateMove b bk 4 bk 2 = qsB2 b bk k R := by
  unfold MoveValidator.simulateMove
  rw [S.hk]
  dsimp only
  rw [if_pos ⟨S.hkt, by decide⟩]
  rw [if_neg (by decide : ¬ (2 : Int) = 6), if_neg (by decide : ¬ (2 : Int) = 6)]
  have hb1 : setPiece (setPiece b bk 2 (some { k with row := bk, col := 2 })) bk 4 none
      = qsB1 b bk k := rfl
  rw [hb1, S.qs_b1_0]
  rfl

/-- The claim's king-alone destination board is `qsB1`. -/
lemma QSSetup.qs_alone_eq_b1 (S : QSSetup b c bk k R) :
    kingAloneSim b bk 2 = qsB1 b bk k := by
  unfold kingAloneSim
  rw [S.hk]
  rfl

lemma QSSetup.qs_findKing_b (S : QSSetup b c bk k R) :
    MoveValidator.findKing b c = some k := by
  apply findKing_eq_some S.hk S.hkt S.hkc
  intro r c' p hp hpt hpc
  obtain ⟨hr, hc'⟩ := S.huniq r c' p hp hpt hpc
  subst hr
  subst hc'
  rw [S.hk] at hp
  exact (Option.some.inj hp).symm

lemma QSSetup.qs_findKing_b1 (S : QSSetup b c bk k R) :
    MoveValidator.findKing (qsB1 b bk k) c = some { k with row := bk, col := 2 } := by
  apply findKing_eq_some S.qs_b1_2 S.hkt S.hkc
  intro r c' p hp hpt hpc
  by_cases h22 : r = bk ∧ c' = 2
  · obtain ⟨rfl, rfl⟩ := h22
    rw [S.qs_b1_2] at hp
    exact (Option.some.inj hp).symm
  · by_cases h44 : r = bk ∧ c' = 4
    · obtain ⟨rfl, rfl⟩ := h44
      rw [S.qs_b1_4] at hp
      exact absurd hp (by simp)
    · rw [S.qs_b1_other h22 h44] at hp
      exact absurd (S.huniq r c' p hp hpt hpc) h44

lemma QSSetup.qs_findKing_b2 (S : QSSetup b c bk k R) :
    MoveValidator.findKing (qsB2 b bk k R) c = some { k with row := bk, col := 2 } := by
  apply findKing_eq_some S.qs_b2_2 S.hkt S.hkc
  intro r c' p hp hpt hpc
  by_cases h33 : r = bk ∧ c' = 3
  · obtain ⟨rfl, rfl⟩ := h33
    rw [S.qs_b2_3] at hp
    have : R.type = PieceType.king := by
      have hpR := (Option.some.inj hp).symm
      rw [← hpt, hpR]
    rw [S.hRt] at this
    exact absurd this (by simp)
  · by_cases h00 : r = bk ∧ c' = 0
    · obtain ⟨rfl, rfl⟩ := h00
      rw [S.qs_b2_0] at hp
      exact absurd hp (by simp)
    · rw [S.qs_b2_other h33 h00] at hp
      by_cases h22 : r = bk ∧ c' = 2
      · obtain ⟨rfl, rfl⟩ := h22
        rw [S.qs_b1_2] at hp
        exact (Option.some.inj hp).symm
      · by_cases h44 : r = bk ∧ c' = 4
        · obtain ⟨rfl, rfl⟩ := h44
          rw [S.qs_b1_4] at hp
          exact absurd hp (by simp)
        · rw [S.qs_b1_other h22 h44] at hp
          exact absurd (S.huniq r c' p hp hpt hpc) h44

end QSFacts

/-- A ray that reaches the king's destination column 2 never crosses the rook
home column 0 strictly earlier. -/
lemma qs_ray_no0 {d : Int × Int} (hd : d ∈ rayDirs) {r0 c0 bk : Int} {n j : Nat}
    (hj1 : 1 ≤ j) (hjn : j < n) (hc0 : 0 ≤ c0 ∧ c0 < 8)
    (e1 : r0 + d.1 * (j : Int) = bk) (e2 : c0 + d.2 * (j : Int) = 0)
    (e3 : r0 + d.1 * (n : Int) = bk) (e4 : c0 + d.2 * (n : Int) = 2) : False := by
  rcases rayDirs_cases hd with ⟨h1, h2⟩ | ⟨h1, h2⟩ | ⟨h1, h2⟩ | ⟨h1, h2⟩ |
    ⟨h1, h2⟩ | ⟨h1, h2⟩ | ⟨h1, h2⟩ | ⟨h1, h2⟩ <;> simp only [h1, h2] at e1 e2 e3 e4 <;> omega

/-- If a ray reaches column 2 of the back rank after crossing column 3 of the
back rank, it is the westward ray: the attacker stands on the back rank east
of column 3 and the crossing is the step just before the destination. -/
lemma qs_ray_through3 {d : Int × Int} (hd : d ∈ rayDirs) {r0 c0 bk : Int} {n j : Nat}
    (hj1 : 1 ≤ j) (hjn : j < n)
    (e1 : r0 + d.1 * (j : Int) = bk) (e2 : c0 + d.2 * (j : Int) = 3)
    (e3 : r0 + d.1 * (n : Int) = bk) (e4 : c0 + d.2 * (n : Int) = 2) :
    d.1 = 0 ∧ d.2 = -1 ∧ r0 = bk ∧ (n : Int) = (j : Int) + 1 ∧ c0 = 3 + (j : Int) := by
  rcases rayDirs_cases hd with ⟨h1, h2⟩ | ⟨h1, h2⟩ | ⟨h1, h2⟩ | ⟨h1, h2⟩ |
    ⟨h1, h2⟩ | ⟨h1, h2⟩ | ⟨h1, h2⟩ | ⟨h1, h2⟩ <;> simp only [h1, h2] at e1 e2 e3 e4 <;>
    refine ⟨?_, ?_, ?_, ?_, ?_⟩ <;> omega

/-- Attack transfer along one ray (queenside): whenever the ray does not give
check on the original board, membership of the castling destination in an
enemy slider's ray is the same on the full castling board and on the
king-alone board. -/
lemma QSSetup.qs_slide_transfer {b : Board} {c : Color} {bk : Int} {k R : ChessPiece}
    (S : QSSetup b c bk k R) {p : ChessPiece} {r0 c0 : Int}
    (hp_b : boardGet b r0 c0 = some p) (hpe : p.color = ChessUtils.getOppositeColor c)
    {d : Int × Int} (hd : d ∈ rayDirs)
    (hsafe : ((bk : Int), (4 : Int)) ∉ ChessPiece.slideLoop b p.color r0 c0 d.1 d.2 1 7) :
    (((bk : Int), (2 : Int)) ∈
        ChessPiece.slideLoop (qsB2 b bk k R) p.color r0 c0 d.1 d.2 1 7 ↔
      ((bk : Int), (2 : Int)) ∈
        ChessPiece.slideLoop (qsB1 b bk k) p.color r0 c0 d.1 d.2 1 7) := by
  obtain ⟨hr0a, hr0b, hc0a, hc0b⟩ := isValidSquare_iff.mp (boardGet_some_valid hp_b)
  have hcc : c ≠ ChessUtils.getOppositeColor c := Ne.symm (getOppositeColor_ne c)
  have hne4 : ¬ (r0 = bk ∧ c0 = 4) := by
    rintro ⟨rfl, rfl⟩
    rw [S.hk] at hp_b
    have hkp := Option.some.inj hp_b
    rw [← hkp] at hpe
    rw [S.hkc] at hpe
    exact hcc hpe
  rw [slideLoop_mem_iff, slideLoop_mem_iff]
  constructor
  · rintro ⟨n, hn1, hn8, ht, hv, hint, htar⟩
    rw [Prod.mk.injEq] at ht
    obtain ⟨e3, e4⟩ := ht
    refine ⟨n, hn1, hn8, by rw [Prod.mk.injEq]; exact ⟨e3, e4⟩, hv, ?_, ?_⟩
    · intro j hj1 hjn
      obtain ⟨hvj, hbj⟩ := hint j hj1 hjn
      have hne3j : ¬ (r0 + d.1 * (j : Int) = bk ∧ c0 + d.2 * (j : Int) = 3) := by
        rintro ⟨f1, f2⟩
        rw [f1, f2, S.qs_b2_3] at hbj
        exact absurd hbj (by simp)
      have hne0j : ¬ (r0 + d.1 * (j : Int) = bk ∧ c0 + d.2 * (j : Int) = 0) := by
        rintro ⟨f1, f2⟩
        exact qs_ray_no0 hd hj1 hjn ⟨hc0a, hc0b⟩ f1 f2 e3.symm e4.symm
      refine ⟨hvj, ?_⟩
      rw [← S.qs_b2_other hne3j hne0j]
      exact hbj
    · right
      refine ⟨{ k with row := bk, col := 2 }, ?_, ?_⟩
      · rw [← e3, ← e4]
        exact S.qs_b1_2
      · show k.color ≠ p.color
        rw [S.hkc, hpe]
        exact hcc
  · rintro ⟨n, hn1, hn8, ht, hv, hint, htar⟩
    rw [Prod.mk.injEq] at ht
    obtain ⟨e3, e4⟩ := ht
    by_cases hex3 : ∃ j : Nat, 1 ≤ j ∧ j < n ∧
        r0 + d.1 * (j : Int) = bk ∧ c0 + d.2 * (j : Int) = 3
    · exfalso
      obtain ⟨j0, hj01, hj0n, f1, f2⟩ := hex3
      obtain ⟨hd1, hd2, hr0bk, hnj, hc0⟩ :=
        qs_ray_through3 hd hj01 hj0n f1 f2 e3.symm e4.symm
      have hc0ne4 : c0 ≠ 4 := fun h => hne4 ⟨hr0bk, h⟩
      have hc05 : 5 ≤ c0 := by omega
      apply hsafe
      rw [slideLoop_mem_iff]
      have g1 : ∀ m : Nat, r0 + d.1 * (m : Int) = bk := by
        intro m
        rw [hd1]
        omega
      refine ⟨(c0 - 4).toNat, by omega, by omega, ?_, ?_, ?_, ?_⟩
      · rw [Prod.mk.injEq]
        refine ⟨(g1 _).symm, ?_⟩
        rw [hd2]
        omega
      · rw [g1, show c0 + d.2 * (((c0 - 4).toNat : Nat) : Int) = 4 by rw [hd2]; omega]
        exact S.qs_valid_bk 4 (by omega)
      · intro j hj1 hjn'
        have hjn2 : j < n := by omega
        obtain ⟨hvj, hbj⟩ := hint j hj1 hjn2
        have hne2j : ¬ (r0 + d.1 * (j : Int) = bk ∧ c0 + d.2 * (j : Int) = 2) := by
          rintro ⟨-, hcol⟩
          rw [hd2] at hcol
          omega
        have hne4j : ¬ (r0 + d.1 * (j : Int) = bk ∧ c0 + d.2 * (j : Int) = 4) := by
          rintro ⟨-, hcol⟩
          rw [hd2] at hcol
          omega
        refine ⟨hvj, ?_⟩
        rw [← S.qs_b1_other hne2j hne4j]
        exact hbj
      · right
        refine ⟨k, ?_, ?_⟩
        · rw [g1, show c0 + d.2 * (((c0 - 4).toNat : Nat) : Int) = 4 by rw [hd2]; omega]
          exact S.hk
        · show k.color ≠ p.color
          rw [S.hkc, hpe]
          exact hcc
    · refine ⟨n, hn1, hn8, by rw [Prod.mk.injEq]; exact ⟨e3, e4⟩, hv, ?_, ?_⟩
      · intro j hj1 hjn
        obtain ⟨hvj, hbj⟩ := hint j hj1 hjn
        have hne0j : ¬ (r0 + d.1 * (j : Int) = bk ∧ c0 + d.2 * (j : Int) = 0) := by
          rintro ⟨f1, f2⟩
          rw [f1, f2, S.qs_b1_0] at hbj
          exact absurd hbj (by simp)
        have hne3j : ¬ (r0 + d.1 * (j : Int) = bk ∧ c0 + d.2 * (j : Int) = 3) := by
          rintro ⟨f1, f2⟩
          exact hex3 ⟨j, hj1, hjn, f1, f2⟩
        refine ⟨hvj, ?_⟩
        rw [S.qs_b2_other hne3j hne0j]
        exact hbj
      · right
        refine ⟨{ k with row := bk, col := 2 }, ?_, ?_⟩
        · rw [← e3, ← e4]
          exact S.qs_b2_2
        · show k.color ≠ p.color
          rw [S.hkc, hpe]
          exact hcc

/-- An enemy piece attacks the queenside castling destination on the full
castling board exactly when it does on the king-alone board. -/
lemma QSSetup.qs_moves_transfer {b : Board} {c : Color} {bk : Int} {k R : ChessPiece}
    (S : QSSetup b c bk k R) {p : ChessPiece}
    (hp_b : boardGet b p.row p.col = some p)
    (hpe : p.color = ChessUtils.getOppositeColor c) :
    (((bk : Int), (2 : Int)) ∈ p.getValidMoves (qsB2 b bk k R) ↔
      ((bk : Int), (2 : Int)) ∈ p.getValidMoves (qsB1 b bk k)) := by
  have hcol2 : ∀ x : Int, boardGet (qsB2 b bk k R) x 2 = boardGet (qsB1 b bk k) x 2 :=
    fun x => S.qs_b2_other (by rintro ⟨-, h⟩; exact absurd h (by decide))
      (by rintro ⟨-, h⟩; exact absurd h (by decide))
  have hsafe : ∀ d : Int × Int,
      (∀ t, t ∈ ChessPiece.slideLoop b p.color p.row p.col d.1 d.2 1 7 →
        t ∈ p.getValidMoves b) →
      ((bk : Int), (4 : Int)) ∉ ChessPiece.slideLoop b p.color p.row p.col d.1 d.2 1 7 := by
    intro d hvm hmem
    have hk4 := S.hcons bk 4 k S.hk
    have hatt : (k.row, k.col) ∈ p.getValidMoves b := by
      rw [hk4.1, hk4.2]
      exact hvm _ hmem
    have hchk := isKingInCheck_of_attacker S.qs_findKing_b hp_b hpe hatt
    rw [S.hnc] at hchk
    exact Bool.noConfusion hchk
  cases htp : p.type
  case pawn =>
    simp only [ChessPiece.getValidMoves, htp]
    exact pawnMoves_mem_congr (fun x => hcol2 x)
  case rook =>
    simp only [ChessPiece.getValidMoves, htp]
    unfold ChessPiece.getRookMoves
    rw [List.mem_flatMap, List.mem_flatMap]
    apply exists_congr
    intro d
    apply and_congr_right
    intro hd
    refine S.qs_slide_transfer hp_b hpe ?_ (hsafe d ?_)
    · fin_cases hd <;> decide
    · intro t ht
      simp only [ChessPiece.getValidMoves, htp]
      unfold ChessPiece.getRookMoves
      rw [List.mem_flatMap]
      exact ⟨d, hd, ht⟩
  case knight =>
    simp only [ChessPiece.getValidMoves, htp]
    unfold ChessPiece.getKnightMoves
    exact stepList_mem_congr (hcol2 bk)
  case bishop =>
    simp only [ChessPiece.getValidMoves, htp]
    unfold ChessPiece.getBishopMoves
    rw [List.mem_flatMap, List.mem_flatMap]
    apply exists_congr
    intro d
    apply and_congr_right
    intro hd
    refine S.qs_slide_transfer hp_b hpe ?_ (hsafe d ?_)
    · fin_cases hd <;> decide
    · intro t ht
      simp only [ChessPiece.getValidMoves, htp]
      unfold ChessPiece.getBishopMoves
      rw [List.mem_flatMap]
      exact ⟨d, hd, ht⟩
  case queen =>
    simp only [ChessPiece.getValidMoves, htp]
    unfold ChessPiece.getQueenMoves
    rw [List.mem_append, List.mem_append]
    apply or_congr
    · unfold ChessPiece.getRookMoves
      rw [List.mem_flatMap, List.mem_flatMap]
      apply exists_congr
      intro d
      apply and_congr_right
      intro hd
      refine S.qs_slide_transfer hp_b hpe ?_ (hsafe d ?_)
      · fin_cases hd <;> decide
      · intro t ht
        simp only [ChessPiece.getValidMoves, htp]
        unfold ChessPiece.getQueenMoves
        rw [List.mem_append]
        left
        unfold ChessPiece.getRookMoves
        rw [List.mem_flatMap]
        exact ⟨d, hd, ht⟩
    · unfold ChessPiece.getBishopMoves
      rw [List.mem_flatMap, List.mem_flatMap]
      apply exists_congr
      intro d
      apply and_congr_right
      intro hd
      refine S.qs_slide_transfer hp_b hpe ?_ (hsafe d ?_)
      · fin_cases hd <;> decide
      · intro t ht
        simp only [ChessPiece.getValidMoves, htp]
        unfold ChessPiece.getQueenMoves
        rw [List.mem_append]
        right
        unfold ChessPiece.getBishopMoves
        rw [List.mem_flatMap]
        exact ⟨d, hd, ht⟩
  case king =>
    simp only [ChessPiece.getValidMoves, htp]
    unfold ChessPiece.getKingMoves
    rw [List.mem_append, List.mem_append]
    apply or_congr
    · exact stepList_mem_congr (hcol2 bk)
    · constructor
      · intro hmem
        exfalso
        split at hmem
        · exact enemy_castle_target_ne S.hbk hpe hmem
        · simp at hmem
      · intro hmem
        exfalso
        split at hmem
        · exact enemy_castle_target_ne S.hbk hpe hmem
        · simp at hmem

/-- Check on the full queenside-castling board coincides with check on the
king-alone board (given no check on the original board). -/
lemma QSSetup.qs_check_transfer {b : Board} {c : Color} {bk : Int} {k R : ChessPiece}
    (S : QSSetup b c bk k R) :
    MoveValidator.isKingInCheck (qsB2 b bk k R) c =
      MoveValidator.isKingInCheck (qsB1 b bk k) c := by
  have h : MoveValidator.isKingInCheck (qsB2 b bk k R) c = true ↔
      MoveValidator.isKingInCheck (qsB1 b bk k) c = true := by
    constructor
    · intro h2
      obtain ⟨r0, c0, p, hp, hpc, hmem⟩ := attacker_of_isKingInCheck S.qs_findKing_b2 h2
      have h33 : ¬ (r0 = bk ∧ c0 = 3) := by
        rintro ⟨rfl, rfl⟩
        rw [S.qs_b2_3] at hp
        have hRp := Option.some.inj hp
        have hcR : R.color = ChessUtils.getOppositeColor c := by
          rw [← hRp] at hpc
          exact hpc
        rw [S.hRc] at hcR
        exact getOppositeColor_ne c hcR.symm
      have h00 : ¬ (r0 = bk ∧ c0 = 0) := by
        rintro ⟨rfl, rfl⟩
        rw [S.qs_b2_0] at hp
        exact Option.noConfusion hp
      have hp1 : boardGet (qsB1 b bk k) r0 c0 = some p := by
        rw [← S.qs_b2_other h33 h00]
        exact hp
      have h22 : ¬ (r0 = bk ∧ c0 = 2) := by
        rintro ⟨rfl, rfl⟩
        rw [S.qs_b1_2] at hp1
        have hkp := Option.some.inj hp1
        have hck : k.color = ChessUtils.getOppositeColor c := by
          rw [← hkp] at hpc
          exact hpc
        rw [S.hkc] at hck
        exact getOppositeColor_ne c hck.symm
      have h44 : ¬ (r0 = bk ∧ c0 = 4) := by
        rintro ⟨rfl, rfl⟩
        rw [S.qs_b1_4] at hp1
        exact Option.noConfusion hp1
      have hpb : boardGet b r0 c0 = some p := by
        rw [← S.qs_b1_other h22 h44]
        exact hp1
      obtain ⟨hrow, hcol⟩ := S.hcons r0 c0 p hpb
      subst hrow
      subst hcol
      have hmem' : ((bk : Int), (2 : Int)) ∈ p.getValidMoves (qsB2 b bk k R) := hmem
      rw [S.qs_moves_transfer hpb hpc] at hmem'
      exact isKingInCheck_of_attacker S.qs_findKing_b1 hp1 hpc hmem'
    · intro h1
      obtain ⟨r0, c0, p, hp, hpc, hmem⟩ := attacker_of_isKingInCheck S.qs_findKing_b1 h1
      have h22 : ¬ (r0 = bk ∧ c0 = 2) := by
        rintro ⟨rfl, rfl⟩
        rw [S.qs_b1_2] at hp
        have hkp := Option.some.inj hp
        have hck : k.color = ChessUtils.getOppositeColor c := by
          rw [← hkp] at hpc
          exact hpc
        rw [S.hkc] at hck
        exact getOppositeColor_ne c hck.symm
      have h44 : ¬ (r0 = bk ∧ c0 = 4) := by
        rintro ⟨rfl, rfl⟩
        rw [S.qs_b1_4] at hp
        exact Option.noConfusion hp
      have hpb : boardGet b r0 c0 = some p := by
        rw [← S.qs_b1_other h22 h44]
        exact hp
      have h33 : ¬ (r0 = bk ∧ c0 = 3) := by
        rintro ⟨rfl, rfl⟩
        rw [S.he3] at hpb
        exact Option.noConfusion hpb
      have h00 : ¬ (r0 = bk ∧ c0 = 0) := by
        rintro ⟨rfl, rfl⟩
        rw [S.hR] at hpb
        have hRp := Option.some.inj hpb
        have hcR : R.color = ChessUtils.getOppositeColor c := by
          rw [← hRp] at hpc
          exact hpc
        rw [S.hRc] at hcR
        exact getOppositeColor_ne c hcR.symm
      have hp2 : boardGet (qsB2 b bk k R) r0 c0 = some p := by
        rw [S.qs_b2_other h33 h00]
        exact hp
      obtain ⟨hrow, hcol⟩ := S.hcons r0 c0 p hpb
      subst hrow
      subst hcol
      have hmem' : ((bk : Int), (2 : Int)) ∈ p.getValidMoves (qsB1 b bk k) := hmem
      rw [← S.qs_moves_transfer hpb hpc] at hmem'
      exact isKingInCheck_of_attacker S.qs_findKing_b2 hp2 hpc hmem'
  cases h2 : MoveValidator.isKingInCheck (qsB2 b bk k R) c <;>
    cases h1 : MoveValidator.isKingInCheck (qsB1 b bk k) c
  · rfl
  · rw [h2] at h
    exact absurd (h.mpr h1) (by simp)
  · rw [h1] at h
    exact absurd (h.mp h2) (by simp)
  · rfl

/-- Queenside half of C2: under a consistent board with a unique king of the
color on its home square, `isValidMove` accepts the two-square queenside king
move exactly when the spec's castling conditions hold. -/
lemma qs_castling_iff (b : Board) (c : Color) (k : ChessPiece)
    (hcons : Consistent b)
    (hk : boardGet b (if c = Color.white then 7 else 0) 4 = some k)
    (hkt : k.type = PieceType.king) (hkc : k.color = c)
    (huniq : ∀ r c' p, boardGet b r c' = some p → p.type = PieceType.king → p.color = c →
      r = (if c = Color.white then 7 else 0) ∧ c' = 4) :
    (MoveValidator.isValidMove k (if c = Color.white then 7 else 0) 2 b = true ↔
      castlingSpec b c ChessGame.CastleSide.queenside) := by
  set bk : Int := (if c = Color.white then 7 else 0) with hbkdef
  obtain ⟨hkr, hkc4⟩ := hcons bk 4 k hk
  have hbkb : 0 ≤ bk ∧ bk < 8 := by
    rw [hbkdef]
    cases c <;> simp
  constructor
  · intro h
    unfold MoveValidator.isValidMove at h
    simp only [Bool.and_eq_true] at h
    obtain ⟨⟨⟨hvalid, hfriendly⟩, hmem'⟩, hbranch⟩ := h
    have hmem : ((bk : Int), (2 : Int)) ∈ k.getValidMoves b := of_decide_eq_true hmem'
    have hkm : ((bk : Int), (2 : Int)) ∈ ChessPiece.getKingMoves k b := by
      unfold ChessPiece.getValidMoves at hmem
      rw [hkt] at hmem
      exact hmem
    unfold ChessPiece.getKingMoves at hkm
    rw [List.mem_append] at hkm
    rcases hkm with hn | hcst
    · exfalso
      rw [List.mem_filterMap] at hn
      obtain ⟨d, hd, heq⟩ := hn
      have ht := (stepTarget_eq_some heq).1
      have hc2 : k.col + d.2 = 2 := congrArg Prod.snd ht
      rw [hkc4] at hc2
      fin_cases hd <;> simp at hc2
    · have hknm : k.hasMoved = false := by
        by_cases hmv : k.hasMoved = false
        · exact hmv
        · rw [if_neg hmv] at hcst
          exact absurd hcst (by simp)
      rw [if_pos hknm] at hcst
      unfold ChessPiece.getCastlingMoves at hcst
      dsimp only at hcst
      rw [hkc, ← hbkdef] at hcst
      rw [if_pos ⟨hkr, hkc4⟩] at hcst
      rw [List.mem_append] at hcst
      have hcst' : ((bk : Int), (2 : Int)) ∈
          (match boardGet b bk 0 with
           | some queensideRook =>
             if queensideRook.type = PieceType.rook ∧ queensideRook.color = c ∧
                 queensideRook.hasMoved = false ∧
                 boardGet b bk 1 = none ∧ boardGet b bk 2 = none ∧
                 boardGet b bk 3 = none then
               [(bk, (2 : Int))]
             else []
           | none => []) := by
        rcases hcst with h1 | h2
        · exfalso
          cases hq : boardGet b bk 7 with
          | none => rw [hq] at h1; simp at h1
          | some q =>
            rw [hq] at h1
            dsimp only at h1
            split at h1
            · rw [List.mem_singleton, Prod.mk.injEq] at h1
              exact absurd h1.2 (by decide)
            · simp at h1
        · exact h2
      cases hr : boardGet b bk 0 with
      | none => rw [hr] at hcst'; exact absurd hcst' (by simp)
      | some R =>
        rw [hr] at hcst'
        dsimp only at hcst'
        split at hcst'
        case isFalse => exact absurd hcst' (by simp)
        case isTrue hguard =>
        obtain ⟨hRt, hRc, hRm, he1, he2, he3⟩ := hguard
        rw [if_pos ⟨hkt, by rw [hkc4]; decide⟩] at hbranch
        unfold MoveValidator.isCastlingValid at hbranch
        rw [hkc, hkr, hkc4] at hbranch
        rw [if_neg (by decide : ¬ (2 : Int) = 6), if_pos rfl] at hbranch
        simp only [Bool.and_eq_true, Bool.not_eq_true'] at hbranch
        obtain ⟨hnc, htr3, htr2⟩ := hbranch
        have S : QSSetup b c bk k R :=
          ⟨hbkdef, hcons, hk, hkt, hkc, huniq, hr, hRt, hRc, he1, he2, he3, hnc⟩
        simp only [castlingSpec, reduceIte]
        rw [← hbkdef]
        refine ⟨⟨k, hk, hkt, hkc, hknm⟩, ⟨R, hr, hRt, hRc, hRm⟩, ?_, hnc, ?_⟩
        · intro cc hcc
          fin_cases hcc
          · exact he1
          · exact he2
          · exact he3
        · intro cc hcc
          fin_cases hcc
          · rw [← simulateMove_kingAlone 3 hk (by decide)]
            exact htr3
          · rw [S.qs_alone_eq_b1, ← S.qs_check_transfer, ← S.qs_sim_eq_b2]
            exact htr2
  · intro hspec
    simp only [castlingSpec, reduceIte] at hspec
    rw [← hbkdef] at hspec
    obtain ⟨⟨k', hk', hk't, hk'c, hk'm⟩, ⟨R, hr, hRt, hRc, hRm⟩, hbet, hnc, htr⟩ := hspec
    have hr0 : boardGet b bk 0 = some R := hr
    have hbet' : ∀ cc ∈ ([1, 2, 3] : List Int), boardGet b bk cc = none := hbet
    have htr' : ∀ cc ∈ ([3, 2] : List Int),
        MoveValidator.isKingInCheck (kingAloneSim b bk cc) c = false := htr
    have hkk' : k' = k := by
      rw [hk] at hk'
      exact (Option.some.inj hk').symm
    subst hkk'
    have he1 : boardGet b bk 1 = none := hbet' 1 (by simp)
    have he2 : boardGet b bk 2 = none := hbet' 2 (by simp)
    have he3 : boardGet b bk 3 = none := hbet' 3 (by simp)
    have S : QSSetup b c bk k' R :=
      ⟨hbkdef, hcons, hk, hk't, hk'c, huniq, hr0, hRt, hRc, he1, he2, he3, hnc⟩
    unfold MoveValidator.isValidMove
    simp only [Bool.and_eq_true]
    refine ⟨⟨⟨?_, ?_⟩, ?_⟩, ?_⟩
    · exact isValidSquare_iff.mpr ⟨hbkb.1, hbkb.2, by decide, by decide⟩
    · rw [he2]
      rfl
    · rw [decide_eq_true_iff]
      unfold ChessPiece.getValidMoves
      rw [hk't]
      unfold ChessPiece.getKingMoves
      rw [List.mem_append]
      right
      rw [if_pos hk'm]
      unfold ChessPiece.getCastlingMoves
      dsimp only
      rw [hk'c, ← hbkdef]
      rw [if_pos ⟨hkr, hkc4⟩]
      rw [List.mem_append]
      right
      rw [hr0]
      dsimp only
      rw [if_pos ⟨hRt, hRc, hRm, he1, he2, he3⟩]
      exact List.mem_singleton.mpr rfl
    · rw [if_pos ⟨hk't, by rw [hkc4]; decide⟩]
      unfold MoveValidator.isCastlingValid
      rw [hk'c, hkr, hkc4]
      rw [if_neg (by decide : ¬ (2 : Int) = 6), if_pos rfl]
      simp only [Bool.and_eq_true, Bool.not_eq_true']
      refine ⟨hnc, ?_, ?_⟩
      · rw [simulateMove_kingAlone 3 hk (by decide)]
        exact htr' 3 (by simp)
      · rw [S.qs_sim_eq_b2, S.qs_check_transfer, ← S.qs_alone_eq_b1]
        exact htr' 2 (by simp)

lemma c2WitnessBoard_consistent : Consistent c2WitnessBoard := by
  intro row col p h
  unfold boardGet at h
  split at h
  case isFalse => exact Option.noConfusion h
  case isTrue hv =>
  simp only [c2WitnessBoard] at h
  split_ifs at h with h1 h2 h3
  · obtain ⟨rfl, rfl⟩ := h1
    have hp := Option.some.inj h
    rw [← hp]
    exact ⟨rfl, rfl⟩
  · obtain ⟨rfl, rfl⟩ := h2
    have hp := Option.some.inj h
    rw [← hp]
    exact ⟨rfl, rfl⟩
  · obtain ⟨rfl, rfl⟩ := h3
    have hp := Option.some.inj h
    rw [← hp]
    exact ⟨rfl, rfl⟩

lemma c2WitnessBoard_uniq : ∀ r c' p, boardGet c2WitnessBoard r c' = some p →
    p.type = PieceType.king → p.color = Color.white →
    r = (if Color.white = Color.white then (7 : Int) else 0) ∧ c' = 4 := by
  intro r c' p h hpt hpc
  show r = (7 : Int) ∧ c' = 4
  unfold boardGet at h
  split at h
  case isFalse => exact Option.noConfusion h
  case isTrue hv =>
  simp only [c2WitnessBoard] at h
  split_ifs at h with h1 h2 h3
  · exact h1
  · have hp := Option.some.inj h
    rw [← hp] at hpt
    exact absurd hpt (by decide)
  · have hp := Option.some.inj h
    rw [← hp] at hpc
    exact absurd hpc (by decide)

/-- C2: for every position (consistent board with a unique king of the moving
color, standing on its home square), the two-square king move to the g-file
(kingside) or c-file (queenside) is accepted by `isValidMove` if and only if
the spec's castling conditions hold: king and the relevant rook unmoved on
their home squares, the squares strictly between them empty, the king not
currently in check, and every transit square (f/g file kingside, d/c file
queenside, destination included) free of attack when the king alone is
simulated there. -/
theorem c2_castling_accepted_iff_spec (b : Board) (c : Color)
    (side : ChessGame.CastleSide) (k : ChessPiece)
    (hcons : Consistent b)
    (hk : boardGet b (if c = Color.white then 7 else 0) 4 = some k)
    (hkt : k.type = PieceType.king) (hkc : k.color = c)
    (huniq : ∀ r c' p, boardGet b r c' = some p → p.type = PieceType.king → p.color = c →
      r = (if c = Color.white then 7 else 0) ∧ c' = 4) :
    (MoveValidator.isValidMove k (if c = Color.white then 7 else 0)
        (if side = ChessGame.CastleSide.kingside then 6 else 2) b = true ↔
      castlingSpec b c side) := by
  cases side
  · exact ks_castling_iff b c k hcons hk hkt hkc huniq
  · exact qs_castling_iff b c k hcons hk hkt hkc huniq

/-- Witness for C2: the concrete kingside position (white king e1, rook h1,
black king e8), with every hypothesis discharged. -/
theorem c2_castling_accepted_iff_spec_witness :
    (MoveValidator.isValidMove (PieceFactory.mkPiece PieceType.king Color.white 7 4)
        (if Color.white = Color.white then 7 else 0)
        (if ChessGame.CastleSide.kingside = ChessGame.CastleSide.kingside then 6 else 2)
        c2WitnessBoard = true ↔
      castlingSpec c2WitnessBoard Color.white ChessGame.CastleSide.kingside) :=
  c2_castling_accepted_iff_spec c2WitnessBoard Color.white ChessGame.CastleSide.kingside
    (PieceFactory.mkPiece PieceType.king Color.white 7 4)
    c2WitnessBoard_consistent (by decide) (by decide) (by decide) c2WitnessBoard_uniq
